import Mathlib

/-!
The hugo-contact backend: token codec, origin guard, submission handler, spam record store

A shallow embedding of the Go sources of `Connexxo/hugo-contact`
(`deploy/main.go`, `deploy-package/spam_logger.go`,
`deploy-package/cmd/spam-report/main.go`) together with the properties of the
specification that were checked against them.

Conventions.
* A Go `string` / `[]byte` is a list of bytes (`Bytes`); bytes are natural
  numbers, text literals are written with `ascii`.
* `int64` values are integers; every place where the Go code can wrap applies
  `wrapInt64` explicitly.
* SHA-256 is a parameter `H : Bytes → Bytes`; HMAC, base64, `strconv`,
  `strings` and `html` are modelled after the Go standard library.
-/

namespace HugoContact

/-! ## Strings -/

/-- A Go string: a sequence of bytes. -/
abbrev Bytes := List Nat

/-- The bytes of an ASCII literal. -/
def ascii (s : String) : Bytes := s.toList.map Char.toNat

/-! ## int64 arithmetic -/

def minInt64 : Int := -9223372036854775808

def maxInt64 : Int := 9223372036854775807

def maxUint64 : Nat := 18446744073709551615

/-- The value `x` is representable as a Go `int64`. -/
def IsInt64 (x : Int) : Prop := minInt64 ≤ x ∧ x ≤ maxInt64

instance (x : Int) : Decidable (IsInt64 x) := by unfold IsInt64; infer_instance

/-- Two's-complement wrap-around of an `int64` result. -/
def wrapInt64 (x : Int) : Int := (x + 9223372036854775808) % 18446744073709551616 - 9223372036854775808

/-! ## strconv -/

/-- The digit loop of `strconv.FormatInt(_, 10)`: the decimal digits of `u`
are pushed in front of `acc`, least significant first. -/
def formatBits : Nat → Nat → Bytes → Bytes
  | 0, _, acc => acc
  | fuel + 1, u, acc =>
    if u < 10 then (48 + u) :: acc
    else formatBits fuel (u / 10) ((48 + u % 10) :: acc)

/-- Models `strconv.FormatUint(u, 10)`. -/
def formatUint (u : Nat) : Bytes := formatBits (u + 1) u []

/-- Models `strconv.FormatInt(i, 10)`: a minus sign for negative values, then the
magnitude in decimal. -/
def formatInt (i : Int) : Bytes :=
  if i < 0 then 45 :: formatUint i.natAbs else formatUint i.natAbs

/-- The loop of `strconv.ParseUint(s, 10, 64)` with accumulator `n`: every
byte must be a decimal digit, `n ≥ cutoff` (`maxUint64/10 + 1`) and
`n*10 + d > maxUint64` are range errors. -/
def parseUintLoop : Bytes → Nat → Option Nat
  | [], n => some n
  | c :: cs, n =>
    if 48 ≤ c ∧ c ≤ 57 then
      if n ≥ maxUint64 / 10 + 1 then none
      else if n * 10 + (c - 48) > maxUint64 then none
      else parseUintLoop cs (n * 10 + (c - 48))
    else none

/-- Models `strconv.ParseUint(s, 10, 64)`; `none` stands for a non-nil error. -/
def parseUint (s : Bytes) : Option Nat :=
  if s = [] then none else parseUintLoop s 0

/-- Models `strconv.ParseInt(s, 10, 64)`; `none` stands for a non-nil error. -/
def parseInt (s : Bytes) : Option Int :=
  match s with
  | [] => none
  | c :: cs =>
    let neg := decide (c = 45)
    let body := if c = 43 ∨ c = 45 then cs else c :: cs
    match parseUint body with
    | none => none
    | some un =>
      if !neg ∧ un ≥ 9223372036854775808 then none
      else if neg ∧ un > 9223372036854775808 then none
      else some (if neg then -(un : Int) else (un : Int))

/-! ## strings -/

/-- The first occurrence of the byte `sep` cuts `s` in two (`strings.Cut`). -/
def cut (sep : Nat) : Bytes → Option (Bytes × Bytes)
  | [] => none
  | c :: cs =>
    if c = sep then some ([], cs)
    else match cut sep cs with
      | none => none
      | some (a, b) => some (c :: a, b)

/-- Models `strings.SplitN(s, sep, n)` for a one-byte separator and `n ≥ 0`. -/
def splitN (sep : Nat) : Nat → Bytes → List Bytes
  | 0, _ => []
  | 1, s => [s]
  | n + 2, s =>
    match cut sep s with
    | none => [s]
    | some (a, b) => a :: splitN sep (n + 1) b

/-- Models `strings.Split(s, sep)` for a one-byte separator: `current` collects the
bytes of the piece being read (in reverse). -/
def splitAux (sep : Nat) : Bytes → Bytes → List Bytes
  | [], current => [current.reverse]
  | c :: cs, current =>
    if c = sep then current.reverse :: splitAux sep cs []
    else splitAux sep cs (c :: current)

def split (sep : Nat) (s : Bytes) : List Bytes := splitAux sep s []

/-! ## encoding/base64, crypto/hmac -/

/-- The standard base64 alphabet. -/
def b64char (n : Nat) : Nat :=
  if n < 26 then 65 + n
  else if n < 52 then 97 + (n - 26)
  else if n < 62 then 48 + (n - 52)
  else if n = 62 then 43
  else 47

/-- Models `base64.StdEncoding.EncodeToString`. -/
def base64Encode : Bytes → Bytes
  | [] => []
  | [a] => [b64char (a / 4), b64char (a % 4 * 16), 61, 61]
  | [a, b] => [b64char (a / 4), b64char (a % 4 * 16 + b / 16), b64char (b % 16 * 4), 61]
  | a :: b :: c :: rest =>
    b64char (a / 4) :: b64char (a % 4 * 16 + b / 16) :: b64char (b % 16 * 4 + c / 64)
      :: b64char (c % 64) :: base64Encode rest

/-- The key block of `hmac.New(sha256.New, key)`: a key longer than the
64-byte block is hashed first, then the key is copied into a zeroed block. -/
def hmacKeyBlock (H : Bytes → Bytes) (key : Bytes) : Bytes :=
  let k := if key.length > 64 then H key else key
  (k ++ List.replicate (64 - k.length) 0).take 64

/-- The digest of `h := hmac.New(sha256.New, key); h.Write(msg); h.Sum(nil)`. -/
def hmacSum (H : Bytes → Bytes) (key msg : Bytes) : Bytes :=
  H ((hmacKeyBlock H key).map (fun b => b ^^^ 92)
    ++ H ((hmacKeyBlock H key).map (fun b => b ^^^ 54) ++ msg))

/-- The loop of `subtle.ConstantTimeCompare`: the differences of all byte
pairs are or-ed into `v`. -/
def constantTimeLoop : Bytes → Bytes → Nat → Nat
  | x :: xs, y :: ys, v => constantTimeLoop xs ys (v ||| (x ^^^ y))
  | _, _, v => v

/-- Models `hmac.Equal`: `subtle.ConstantTimeCompare(a, b) == 1`. -/
def hmacEqual (a b : Bytes) : Bool :=
  if a.length ≠ b.length then false else constantTimeLoop a b 0 == 0

/-! ## Token codec (`deploy/main.go`) -/

/-- The MAC text of a token: base64 of HMAC-SHA256 over the timestamp text. -/
def tokenMAC (H : Bytes → Bytes) (tokenSecret msg : Bytes) : Bytes :=
  base64Encode (hmacSum H tokenSecret msg)

/-- Models `generateToken(ts)`. -/
def generateToken (H : Bytes → Bytes) (tokenSecret : Bytes) (ts : Int) : Bytes :=
  formatInt ts ++ 58 :: tokenMAC H tokenSecret (formatInt ts)

/-- Models `validateToken(token)`, with `time.Now().Unix()` passed as `now`. -/
def validateToken (H : Bytes → Bytes) (tokenSecret token : Bytes) (now : Int) : Bool :=
  match splitN 58 2 token with
  | [p0, p1] =>
    match parseInt p0 with
    | none => false
    | some ts =>
      if ts > now ∨ wrapInt64 (now - ts) < 2 ∨ wrapInt64 (now - ts) > 900 then false
      else hmacEqual (tokenMAC H tokenSecret p0) p1
  | _ => false

/-! ## unicode/utf8 -/

/-- Models `utf8.RuneError`, U+FFFD. -/
def runeError : Nat := 65533

/-- Models `utf8.DecodeRuneInString`: the first rune of `s` and its width in bytes.
Ill-formed input decodes to `(runeError, 1)`, the empty string to
`(runeError, 0)`. -/
def decodeRune : Bytes → Nat × Nat
  | [] => (runeError, 0)
  | s0 :: rest =>
    if s0 < 128 then (s0, 1)
    else if s0 < 194 ∨ 245 ≤ s0 then (runeError, 1)
    else
      let sz := if s0 < 224 then 2 else if s0 < 240 then 3 else 4
      let lo := if s0 = 224 then 160 else if s0 = 240 then 144 else 128
      let hi := if s0 = 237 then 159 else if s0 = 244 then 143 else 191
      if rest.length + 1 < sz then (runeError, 1)
      else match rest with
        | [] => (runeError, 1)
        | s1 :: rest1 =>
          if s1 < lo ∨ hi < s1 then (runeError, 1)
          else if sz ≤ 2 then (s0 % 32 * 64 + s1 % 64, 2)
          else match rest1 with
            | [] => (runeError, 1)
            | s2 :: rest2 =>
              if s2 < 128 ∨ 191 < s2 then (runeError, 1)
              else if sz ≤ 3 then (s0 % 16 * 4096 + s1 % 64 * 64 + s2 % 64, 3)
              else match rest2 with
                | [] => (runeError, 1)
                | s3 :: _ =>
                  if s3 < 128 ∨ 191 < s3 then (runeError, 1)
                  else (s0 % 8 * 262144 + s1 % 64 * 4096 + s2 % 64 * 64 + s3 % 64, 4)

/-- Models `utf8.RuneStart`: the byte is not a continuation byte. -/
def runeStart (b : Nat) : Bool := !(decide (128 ≤ b) && decide (b ≤ 191))

/-- Models `utf8.DecodeLastRuneInString`: the last rune of `s` and its width. -/
def decodeLastRune (s : Bytes) : Nat × Nat :=
  let e := s.length
  if e = 0 then (runeError, 0)
  else if s.getD (e - 1) 0 < 128 then (s.getD (e - 1) 0, 1)
  else
    let start :=
      if 2 ≤ e ∧ runeStart (s.getD (e - 2) 0) then e - 2
      else if 3 ≤ e ∧ runeStart (s.getD (e - 3) 0) then e - 3
      else if 4 ≤ e ∧ runeStart (s.getD (e - 4) 0) then e - 4
      else e - 5
    let d := decodeRune (s.drop start)
    if start + d.2 ≠ e then (runeError, 1) else d

/-- Models `utf8.AppendRune` / `Builder.WriteRune`: the UTF-8 encoding of a rune;
surrogates and values above U+10FFFF are written as U+FFFD. -/
def encodeRune (r : Nat) : Bytes :=
  if r < 128 then [r]
  else if r < 2048 then [192 + r / 64, 128 + r % 64]
  else if 1114111 < r ∨ (55296 ≤ r ∧ r ≤ 57343) then [239, 191, 189]
  else if r < 65536 then [224 + r / 4096, 128 + r / 64 % 64, 128 + r % 64]
  else [240 + r / 262144, 128 + r / 4096 % 64, 128 + r / 64 % 64, 128 + r % 64]

/-- Models `unicode.IsSpace`. -/
def isSpace (r : Nat) : Bool :=
  decide (r = 9 ∨ r = 10 ∨ r = 11 ∨ r = 12 ∨ r = 13 ∨ r = 32 ∨ r = 133 ∨ r = 160 ∨ r = 5760
    ∨ (8192 ≤ r ∧ r ≤ 8202) ∨ r = 8232 ∨ r = 8233 ∨ r = 8239 ∨ r = 8287 ∨ r = 12288)

/-! ## strings.Map, strings.TrimSpace, html.EscapeString -/

/-- The rune loop of `strings.Map`: every rune of `s` is decoded, mapped and
re-encoded; `none` stands for a negative result (the rune is dropped). -/
def mapLoop (mapping : Nat → Option Nat) : Nat → Bytes → Bytes
  | 0, _ => []
  | fuel + 1, s =>
    if s = [] then []
    else
      (match mapping (decodeRune s).1 with
        | none => []
        | some r => encodeRune r) ++ mapLoop mapping fuel (s.drop (decodeRune s).2)

/-- Models `strings.Map(mapping, s)`. -/
def stringsMap (mapping : Nat → Option Nat) (s : Bytes) : Bytes :=
  mapLoop mapping s.length s

/-- Models `strings.TrimLeftFunc(s, unicode.IsSpace)`: leading white-space runes are
dropped one at a time. -/
def trimLeftLoop : Nat → Bytes → Bytes
  | 0, _ => []
  | fuel + 1, s =>
    if s = [] then []
    else if isSpace (decodeRune s).1 then trimLeftLoop fuel (s.drop (decodeRune s).2)
    else s

def trimLeft (s : Bytes) : Bytes := trimLeftLoop s.length s

/-- The loop `lastIndexFunc(s, unicode.IsSpace, false)` of package `strings`:
the index of the last rune that is not white space, scanning `s[0:i]`
backwards; `none` stands for -1. -/
def lastIndexLoop (s : Bytes) : Nat → Nat → Option Nat
  | 0, _ => none
  | fuel + 1, i =>
    if i = 0 then none
    else if !isSpace (decodeLastRune (s.take i)).1 then some (i - (decodeLastRune (s.take i)).2)
    else lastIndexLoop s fuel (i - (decodeLastRune (s.take i)).2)

/-- Models `strings.TrimRightFunc(s, unicode.IsSpace)`. -/
def trimRight (s : Bytes) : Bytes :=
  match lastIndexLoop s s.length s.length with
  | some i =>
    if s.getD i 0 ≥ 128 then s.take (i + (decodeRune (s.drop i)).2) else s.take (i + 1)
  | none => s.take 0

/-- Models `strings.TrimSpace(s)`, that is `strings.TrimFunc(s, unicode.IsSpace)` (the
ASCII fast path of the library is an optimisation of it). -/
def trimSpace (s : Bytes) : Bytes := trimRight (trimLeft s)

/-- One byte of `html.EscapeString`: the five characters `&`, apostrophe,
`<`, `>` and the double quote are replaced by entities. -/
def htmlEscapeByte (b : Nat) : Bytes :=
  if b = 38 then ascii "&amp;"
  else if b = 39 then ascii "&#39;"
  else if b = 60 then ascii "&lt;"
  else if b = 62 then ascii "&gt;"
  else if b = 34 then ascii "&#34;"
  else [b]

/-- Models `html.EscapeString`. -/
def htmlEscapeString (s : Bytes) : Bytes := s.flatMap htmlEscapeByte

/-! ## HTTP requests, environment, effects -/

/-- The first value stored under `key`, the empty string when there is none:
`os.Getenv`, `Header.Get` and `Request.FormValue` all read this way. -/
def lookup (kvs : List (Bytes × Bytes)) (key : Bytes) : Bytes :=
  match kvs.find? (fun p => p.1 = key) with
  | some p => p.2
  | none => []

/-- The part of an `*http.Request` the handlers read. `form` is the parsed
form (`r.Form` after `r.ParseForm()`), in the order `FormValue` looks it up. -/
structure Request where
  method : Bytes
  header : List (Bytes × Bytes)
  remoteAddr : Bytes
  form : List (Bytes × Bytes)

/-- What was written to the `http.ResponseWriter`. -/
structure Response where
  status : Nat
  header : List (Bytes × Bytes)
  body : Bytes
deriving DecidableEq

/-- Everything a handler reads from outside the request: the process
environment, the clock (`time.Now().Unix()` and the formatted date) and the
outcome of `smtp.SendMail` (`none` is a nil error). -/
structure World where
  env : List (Bytes × Bytes)
  now : Int
  date : Bytes
  smtpSendMail : Bytes → Bytes → Bytes → Bytes → Option Bytes

/-- Observable actions of a handler besides the HTTP response. -/
inductive Effect where
  | log (level msg : Bytes)
  | sendEmail (name email message subject : Bytes)
  | smtpSend (addr sender recipient body : Bytes)
  | logSpam (email subject message reason clientIP : Bytes)
deriving DecidableEq

def Effect.isSendEmail : Effect → Bool
  | .sendEmail _ _ _ _ => true
  | _ => false

def Effect.isSmtpSend : Effect → Bool
  | .smtpSend _ _ _ _ => true
  | _ => false

def Effect.isLogSpam : Effect → Bool
  | .logSpam _ _ _ _ _ => true
  | _ => false

/-- Models `http.Error(w, msg, code)`. -/
def httpError (header : List (Bytes × Bytes)) (msg : Bytes) (code : Nat) : Response :=
  { status := code
    header := header ++ [(ascii "Content-Type", ascii "text/plain; charset=utf-8"),
      (ascii "X-Content-Type-Options", ascii "nosniff")]
    body := msg ++ [10] }

/-! ## Origin guard and contact handler (`deploy/main.go`) -/

/-- Models `getClientIP(r)`. -/
def getClientIP (r : Request) : Bytes :=
  if lookup r.header (ascii "X-Forwarded-For") ≠ [] then
    trimSpace ((split 44 (lookup r.header (ascii "X-Forwarded-For"))).headD [])
  else if lookup r.header (ascii "X-Real-IP") ≠ [] then lookup r.header (ascii "X-Real-IP")
  else r.remoteAddr

/-- The `for … range origins` loop of `checkAndSetCORSHeaders`, leaving at the
first entry that equals the origin after trimming. -/
def originLoop (origin : Bytes) : List Bytes → Bool
  | [] => false
  | allowedOrigin :: rest =>
    if trimSpace allowedOrigin = origin then true else originLoop origin rest

/-- Models `checkAndSetCORSHeaders(w, r)`: the result and the headers set on `w`. -/
def checkAndSetCORSHeaders (env : List (Bytes × Bytes)) (r : Request) :
    Bool × List (Bytes × Bytes) :=
  let origin := lookup r.header (ascii "Origin")
  let allowedOrigins :=
    if lookup env (ascii "CORS_ALLOW_ORIGINS") = [] then ascii "*"
    else lookup env (ascii "CORS_ALLOW_ORIGINS")
  let isAllowed :=
    if allowedOrigins = ascii "*" then true
    else if origin ≠ [] then originLoop origin (split 44 allowedOrigins)
    else false
  if origin ≠ [] ∧ isAllowed = false then (false, [])
  else if origin ≠ [] ∧ isAllowed = true then
    (true, [(ascii "Access-Control-Allow-Origin", origin),
      (ascii "Access-Control-Allow-Methods", ascii "POST, OPTIONS"),
      (ascii "Access-Control-Allow-Headers", ascii "Content-Type"),
      (ascii "Access-Control-Max-Age", ascii "86400")])
  else (true, [])

/-- Models `sendEmail(name, email, message, subject)`: the returned error (`none` is
nil) and the effects, at most one `smtp.SendMail`. -/
def sendEmail (w : World) (name email message subject : Bytes) : Option Bytes × List Effect :=
  let smtpHost := lookup w.env (ascii "SMTP_HOST")
  let smtpPort := lookup w.env (ascii "SMTP_PORT")
  let smtpUser := lookup w.env (ascii "SMTP_USERNAME")
  let smtpPass := lookup w.env (ascii "SMTP_PASSWORD")
  let senderEmail := lookup w.env (ascii "SENDER_EMAIL")
  let recipient := lookup w.env (ascii "RECIPIENT_EMAIL")
  if smtpHost = [] ∨ smtpPort = [] ∨ smtpUser = [] ∨ smtpPass = [] ∨ senderEmail = []
      ∨ recipient = [] then
    (some (ascii "missing required SMTP environment variables"), [])
  else
    let subject := if subject = [] then ascii "Contact Form Submission" else subject
    let body := ascii "From: " ++ senderEmail ++ ascii "\nTo: " ++ recipient
      ++ ascii "\nSubject: " ++ subject ++ ascii "\nDate: " ++ w.date
      ++ ascii "\n\nName: " ++ name ++ ascii "\nEmail: " ++ email
      ++ ascii "\nMessage:\n" ++ message
    (w.smtpSendMail (smtpHost ++ 58 :: smtpPort) senderEmail recipient body,
      [Effect.smtpSend (smtpHost ++ 58 :: smtpPort) senderEmail recipient body])

/-- Models `contactHandler(w, r)` of `deploy/main.go`: the response and the effects
in program order. `http.Redirect` is reduced to its status and `Location`
header. -/
def contactHandler (H : Bytes → Bytes) (tokenSecret : Bytes) (w : World) (r : Request) :
    Response × List Effect :=
  let cors := checkAndSetCORSHeaders w.env r
  if cors.1 = false then
    (httpError cors.2 (ascii "Forbidden") 403,
      [Effect.log (ascii "WARN") (ascii "Blocked request due to invalid origin")])
  else if r.method = ascii "OPTIONS" then
    ({ status := 204, header := cors.2, body := [] }, [])
  else if r.method ≠ ascii "POST" then
    (httpError cors.2 (ascii "Method Not Allowed") 405,
      [Effect.log (ascii "WARN") (ascii "Invalid HTTP method")])
  else if validateToken H tokenSecret (lookup r.form (ascii "_ts_token")) w.now = false then
    (httpError cors.2 (ascii "Invalid token") 400,
      [Effect.log (ascii "WARN") (ascii "Invalid or missing timestamp token")])
  else if lookup r.form (ascii "_gotcha") ≠ [] ∨ lookup r.form (ascii "nickname") ≠ [] then
    ({ status := 200, header := cors.2, body := [] },
      [Effect.log (ascii "INFO")
        (ascii "Honeypot field triggered " ++ [226, 128, 148] ++ ascii " likely a bot")])
  else
    let name := lookup r.form (ascii "name")
    let email := lookup r.form (ascii "email")
    let message := lookup r.form (ascii "message")
    let subject := lookup r.form (ascii "subject")
    let received := Effect.log (ascii "INFO") (ascii "Form submission received")
    if name = [] ∨ email = [] ∨ message = [] then
      (httpError cors.2 (ascii "Missing required fields") 400,
        [received, Effect.log (ascii "WARN") (ascii "Missing required fields")])
    else
      let sent := sendEmail w name email message subject
      let call := Effect.sendEmail name email message subject
      match sent.1 with
      | some _ =>
        (httpError cors.2 (ascii "Failed to send message") 500,
          received :: call :: sent.2 ++ [Effect.log (ascii "ERROR") (ascii "Failed to send email")])
      | none =>
        let done := Effect.log (ascii "INFO") (ascii "Email sent successfully")
        if lookup r.form (ascii "_next") ≠ [] then
          ({ status := 303, header := cors.2 ++ [(ascii "Location", lookup r.form (ascii "_next"))],
             body := [] }, received :: call :: sent.2 ++ [done])
        else
          ({ status := 200, header := cors.2, body := ascii "Thanks! Your message was sent." },
            received :: call :: sent.2 ++ [done])

/-! ## Spam record store (`deploy-package/spam_logger.go`) -/

def maxSubjectLength : Int := 200

def maxEmailLength : Int := 100

def maxMessageLength : Int := 500

/-- Models `SpamLogEntry`; the timestamp is an instant in nanoseconds. -/
structure SpamLogEntry where
  timestamp : Int
  senderEmail : Bytes
  subject : Bytes
  message : Bytes
  reason : Bytes
  clientIP : Bytes
deriving DecidableEq

/-- The mapping passed to `strings.Map` in `sanitizeString`: control
characters other than tab and newline are dropped. -/
def sanitizeRune (r : Nat) : Option Nat :=
  if r < 32 ∧ r ≠ 9 ∧ r ≠ 10 then none else some r

/-- Models `SpamLogger.sanitizeString(input, maxLength)`; `none` is the run-time panic
of the slice expression `sanitized[:maxLength]` for a negative bound. -/
def sanitizeString (input : Bytes) (maxLength : Int) : Option Bytes :=
  let escaped := htmlEscapeString input
  let mapped := stringsMap sanitizeRune escaped
  if (mapped.length : Int) > maxLength then
    if maxLength < 0 then none
    else some (trimSpace (mapped.take maxLength.toNat))
  else some (trimSpace mapped)

/-- The entry `LogSpam` builds from its arguments at time `now`. -/
def logSpamEntry (now : Int) (email subject message reason clientIP : Bytes) :
    Option SpamLogEntry :=
  match sanitizeString email maxEmailLength, sanitizeString subject maxSubjectLength,
    sanitizeString message maxMessageLength, sanitizeString reason 100,
    sanitizeString clientIP 50 with
  | some e, some s, some m, some r, some ip =>
    some { timestamp := now, senderEmail := e, subject := s, message := m, reason := r,
           clientIP := ip }
  | _, _, _, _, _ => none

/-- What `json.Decoder.Decode` meets next in a partition file.
* `record e`: a complete JSON value that unmarshals into the entry `e`;
* `mismatch`: a complete JSON value that does not fit `SpamLogEntry`
  (an `UnmarshalTypeError`, an unparsable timestamp);
* `garbage`: bytes that are not JSON (the scanner reports an error);
* `truncated`: a JSON value cut short by the end of the file. -/
inductive Chunk where
  | record (e : SpamLogEntry)
  | mismatch
  | garbage
  | truncated
deriving DecidableEq

/-- A file of the log directory. `content = none` is a file `os.Open` fails
on. -/
structure LogFile where
  name : Bytes
  content : Option (List Chunk)
  size : Nat
  modTime : Int
deriving DecidableEq

/-- The errors `Decode` returns. -/
inductive DecodeError where
  | eof
  | unexpectedEOF
  | badSyntax
  | unmarshal
deriving DecidableEq

/-- A `json.Decoder` over a file: the unread input and the decoder's stored
error `dec.err`. -/
structure Decoder where
  rest : List Chunk
  err : Option DecodeError

/-- Models `(*json.Decoder).Decode(&entry)`. A stored error is returned again without
reading; end of input, a scanner error and an unexpected end of input are
stored; an unmarshal error is returned once and the value is consumed. -/
def Decoder.decode (d : Decoder) : Except DecodeError SpamLogEntry × Decoder :=
  match d.err with
  | some e => (.error e, d)
  | none =>
    match d.rest with
    | [] => (.error .eof, { d with err := some .eof })
    | .record e :: rest => (.ok e, { rest := rest, err := none })
    | .mismatch :: rest => (.error .unmarshal, { rest := rest, err := none })
    | .garbage :: _ => (.error .badSyntax, { d with err := some .badSyntax })
    | .truncated :: _ => (.error .unexpectedEOF, { d with err := some .unexpectedEOF })

/-- The `for` loop of `readLogFile`: it is left only when `Decode` returns
`io.EOF`; any other error is followed by `continue`. `none` means the loop is
still running when the fuel is used up. -/
def readLoop (cutoff : Int) : Nat → Decoder → List SpamLogEntry → Option (List SpamLogEntry)
  | 0, _, _ => none
  | fuel + 1, d, entries =>
    match d.decode with
    | (.error .eof, _) => some entries
    | (.error _, d1) => readLoop cutoff fuel d1 entries
    | (.ok entry, d1) =>
      if entry.timestamp > cutoff then readLoop cutoff fuel d1 (entries ++ [entry])
      else readLoop cutoff fuel d1 entries

/-- Models `readLogFile(filename, cutoff)` (the same code in `spam_logger.go` and in
`cmd/spam-report/main.go`): `none` when the call has not returned within
`fuel` iterations, `some (.error _)` when the file cannot be opened. -/
def readLogFile (fuel : Nat) (file : LogFile) (cutoff : Int) :
    Option (Except Bytes (List SpamLogEntry)) :=
  match file.content with
  | none => some (.error (ascii "open failed"))
  | some chunks =>
    match readLoop cutoff fuel { rest := chunks, err := none } [] with
    | none => none
    | some entries => some (.ok entries)

/-- The suffixes of `name` a `*` can leave: it skips any run of bytes without
a path separator. -/
def starTails : Bytes → List Bytes
  | [] => [[]]
  | c :: cs => (c :: cs) :: (if c = 47 then [] else starTails cs)

/-- Models `filepath.Match(pattern, name)` for patterns made of literal bytes and
`*`. -/
def globMatch : Bytes → Bytes → Bool
  | [], name => name = []
  | p :: ps, name =>
    if p = 42 then (starTails name).any (fun t => globMatch ps t)
    else match name with
      | [] => false
      | c :: cs => p = c && globMatch ps cs

/-- Lexicographic order on byte strings. -/
def bytesLE : Bytes → Bytes → Bool
  | [], _ => true
  | _ :: _, [] => false
  | a :: as, b :: bs => a < b || (a = b && bytesLE as bs)

/-- Models `filepath.Glob(filepath.Join(logDir, pattern))` over the files of the log
directory: the matching files, sorted by name. The directory name itself is
taken to hold no pattern character. -/
def glob (pattern : Bytes) (dir : List LogFile) : List LogFile :=
  (dir.filter (fun f => globMatch pattern f.name)).insertionSort (fun a b => bytesLE a.name b.name)

/-- One hour as a `time.Duration`, in nanoseconds. -/
def hour : Int := 3600000000000

/-- The instant `time.Now().Add(-time.Duration(hours) * time.Hour)`: the
`Duration` arithmetic is `int64` arithmetic. -/
def cutoffTime (now hours : Int) : Int :=
  now + wrapInt64 (wrapInt64 (-hours) * hour)

/-- The `for … range files` loop of `GetRecentSpamLogs` / `getRecentSpamLogs`:
a file that cannot be read is skipped. -/
def collectLoop (fuel : Nat) (cutoff : Int) :
    List LogFile → List SpamLogEntry → Option (List SpamLogEntry)
  | [], entries => some entries
  | file :: files, entries =>
    match readLogFile fuel file cutoff with
    | none => none
    | some (.error _) => collectLoop fuel cutoff files entries
    | some (.ok fileEntries) => collectLoop fuel cutoff files (entries ++ fileEntries)

/-- Models `SpamLogger.GetRecentSpamLogs(hours)` over the log directory `dir` at time
`now`; `none` when the call has not returned within the fuel. -/
def SpamLogger.GetRecentSpamLogs (fuel : Nat) (dir : List LogFile) (now hours : Int) :
    Option (List SpamLogEntry) :=
  collectLoop fuel (cutoffTime now hours) (glob (ascii "spam-*.jsonl") dir) []

/-- Models `getRecentSpamLogs(logDir, hours)` of `cmd/spam-report/main.go`: as above,
followed by `sort.Slice` with `entries[i].Timestamp.After(entries[j].Timestamp)`. -/
def getRecentSpamLogs (fuel : Nat) (dir : List LogFile) (now hours : Int) :
    Option (List SpamLogEntry) :=
  match collectLoop fuel (cutoffTime now hours) (glob (ascii "spam-*.jsonl") dir) [] with
  | none => none
  | some entries => some (entries.insertionSort (fun a b => a.timestamp ≥ b.timestamp))

/-- The fields of `SpamLogger` the store operations read. -/
structure SpamLogger where
  maxSizeMB : Int
  retentionDays : Int

/-- Models `getCurrentLogFile()`: `today` is `time.Now().Format("2006-01-02")`. -/
def getCurrentLogFile (today : Bytes) : Bytes := ascii "spam-" ++ today ++ ascii ".jsonl"

/-- Models `os.Rename(old, new)` inside the log directory: a file already called
`new` is replaced. -/
def rename (dir : List LogFile) (old new : Bytes) : List LogFile :=
  (dir.filter (fun f => f.name ≠ new)).map
    (fun f => if f.name = old then { f with name := new } else f)

/-- Models `rotateIfNeeded(logFile)`: a current file of at least
`int64(maxSizeMB) * 1024 * 1024` bytes is renamed to `<logFile>.<unix time>`. -/
def rotateIfNeeded (sl : SpamLogger) (nowUnix : Int) (dir : List LogFile) (logFile : Bytes) :
    List LogFile :=
  match dir.find? (fun f => f.name = logFile) with
  | none => dir
  | some info =>
    if (info.size : Int) ≥ wrapInt64 (wrapInt64 (sl.maxSizeMB * 1024) * 1024) then
      rename dir logFile (logFile ++ 46 :: formatInt nowUnix)
    else dir

/-- Opening the current file with `O_CREATE|O_APPEND|O_WRONLY` and encoding
one entry into it; `jsonLen` is the length of the encoded line. -/
def appendEntry (dir : List LogFile) (logFile : Bytes) (entry : SpamLogEntry) (jsonLen : Nat)
    (now : Int) : Except Bytes (List LogFile) :=
  match dir.find? (fun f => f.name = logFile) with
  | none =>
    .ok (dir ++ [{ name := logFile, content := some [Chunk.record entry], size := jsonLen,
                   modTime := now }])
  | some file =>
    match file.content with
    | none => .error (ascii "failed to open log file")
    | some chunks =>
      .ok (dir.map (fun f =>
        if f.name = logFile then
          { f with content := some (chunks ++ [Chunk.record entry]), size := f.size + jsonLen,
                   modTime := now }
        else f))

/-- Models `SpamLogger.LogSpam(email, subject, message, reason, clientIP)` on the log
directory `dir`: the entry is sanitized, the current file rotated if needed and
the entry appended. `now` is the clock in nanoseconds, `today` its calendar
date; the detached `cleanOldLogs` call is not part of the result. -/
def LogSpam (sl : SpamLogger) (jsonLen : SpamLogEntry → Nat) (dir : List LogFile) (now : Int)
    (today email subject message reason clientIP : Bytes) : Except Bytes (List LogFile) :=
  match logSpamEntry now email subject message reason clientIP with
  | none => .error (ascii "slice bounds out of range")
  | some entry =>
    let logFile := getCurrentLogFile today
    appendEntry (rotateIfNeeded sl (now / 1000000000) dir logFile) logFile entry (jsonLen entry) now

/-- Models `cleanOldLogs()`: every file matching `spam-*.jsonl*` whose modification
time is before `now` minus the retention days (`day` nanoseconds each, as
`AddDate` counts them at `now`) is removed. -/
def cleanOldLogs (sl : SpamLogger) (dir : List LogFile) (now day : Int) : List LogFile :=
  dir.filter (fun f =>
    !(globMatch (ascii "spam-*.jsonl*") f.name && decide (f.modTime < now - sl.retentionDays * day)))

/-! ## Spam report (`deploy-package/cmd/spam-report/main.go`) -/

/-- Models `strings.LastIndex(s, sep)` for a one-byte separator: the index of
the last occurrence, -1 when there is none. -/
def lastIndexByte (b : Nat) : Bytes → Int
  | [] => -1
  | c :: cs =>
    if lastIndexByte b cs ≥ 0 then lastIndexByte b cs + 1
    else if c = b then 0
    else -1

/-- Models `strings.ReplaceAll(s, old, new)` for a one-byte `old`. -/
def replaceAll (old : Nat) (new : Bytes) (s : Bytes) : Bytes :=
  s.flatMap (fun b => if b = old then new else [b])

/-- The cell `formatMessage` renders for an empty message. -/
def emptyMessageCell : Bytes :=
  ascii "<span class=" ++ [34] ++ ascii "truncated" ++ [34] ++ ascii ">(empty)</span>"

/-- The marker `formatMessage` appends to a truncated message. -/
def truncationMarker : Bytes :=
  ascii "<span class=" ++ [34] ++ ascii "truncated" ++ [34] ++ ascii ">... (truncated)</span>"

/-- Models `escapeHTML(s)`. -/
def escapeHTML (s : Bytes) : Bytes :=
  if s = [] then ascii "(empty)" else htmlEscapeString s

/-- Models `formatMessage(message)`. -/
def formatMessage (message : Bytes) : Bytes :=
  if message = [] then emptyMessageCell
  else if (htmlEscapeString message).length > 200 then
    (if lastIndexByte 32 ((htmlEscapeString message).take 200) > 150 then
      ((htmlEscapeString message).take 200).take
        (lastIndexByte 32 ((htmlEscapeString message).take 200)).toNat
    else (htmlEscapeString message).take 200) ++ truncationMarker
  else replaceAll 13 [] (replaceAll 10 (ascii "<br>") (htmlEscapeString message))

/-- One table row of `generateHTMLReport`, the body of its `for … range
entries` loop; `timeText` is `entry.Timestamp.Format("Jan 2 15:04:05")`. -/
def reportRow (timeText : SpamLogEntry → Bytes) (entry : SpamLogEntry) : Bytes :=
  ascii "<tr>"
    ++ (ascii "<td>" ++ timeText entry ++ ascii "</td>")
    ++ (ascii "<td>" ++ escapeHTML entry.senderEmail ++ ascii "</td>")
    ++ (ascii "<td>" ++ escapeHTML entry.subject ++ ascii "</td>")
    ++ (ascii "<td class=" ++ [34] ++ ascii "message-cell" ++ [34] ++ ascii ">"
        ++ formatMessage entry.message ++ ascii "</td>")
    ++ (ascii "<td>" ++ escapeHTML entry.reason ++ ascii "</td>")
    ++ (ascii "<td>" ++ escapeHTML entry.clientIP ++ ascii "</td>")
    ++ ascii "</tr>"

/-- Models `generateHTMLReport(entries)`: `head` is the fixed document head up to
`<tbody>` (it carries the report date and the entry count), `foot` the fixed
closing part. -/
def generateHTMLReport (head foot : Bytes) (timeText : SpamLogEntry → Bytes)
    (entries : List SpamLogEntry) : Bytes :=
  head ++ (entries.map (reportRow timeText)).flatten ++ foot

/-! ## Specification-side definitions -/

/-- Every byte is an ASCII decimal digit. -/
def AllDigits (s : Bytes) : Prop := ∀ c ∈ s, 48 ≤ c ∧ c ≤ 57

instance (s : Bytes) : Decidable (AllDigits s) := by unfold AllDigits; infer_instance

/-- The number a digit string denotes, continuing from `n`. -/
def decValue (s : Bytes) (n : Nat) : Nat := s.foldl (fun a c => a * 10 + (c - 48)) n

/-- The text is a base-10 signed 64-bit integer: an optional sign, then one or
more decimal digits whose value lies in the `int64` range. -/
def isDecimalInt64 (s : Bytes) : Bool :=
  match s with
  | [] => false
  | 45 :: digits =>
    decide (digits ≠ []) && digits.all (fun c => decide (48 ≤ c ∧ c ≤ 57))
      && decide (IsInt64 (-(decValue digits 0 : Int)))
  | 43 :: digits =>
    decide (digits ≠ []) && digits.all (fun c => decide (48 ≤ c ∧ c ≤ 57))
      && decide (IsInt64 (decValue digits 0 : Int))
  | digits =>
    digits.all (fun c => decide (48 ≤ c ∧ c ≤ 57)) && decide (IsInt64 (decValue digits 0 : Int))

/-- The text before the first `:` of a token. -/
def timestampPart (token : Bytes) : Bytes := token.takeWhile (fun c => c ≠ 58)

/-- The text HMAC hashes first: the key block xored with the inner pad byte
0x36, followed by the message (RFC 2104). -/
def hmacInnerInput (H : Bytes → Bytes) (key msg : Bytes) : Bytes :=
  (hmacKeyBlock H key).map (fun b => b ^^^ 54) ++ msg

/-- The text HMAC hashes last: the key block xored with the outer pad byte
0x5c, followed by the digest of the inner text (RFC 2104). -/
def hmacOuterInput (H : Bytes → Bytes) (key msg : Bytes) : Bytes :=
  (hmacKeyBlock H key).map (fun b => b ^^^ 92) ++ H (hmacInnerInput H key msg)

/-- Two different texts with the same digest: a collision of the hash `H`. -/
def Collision (H : Bytes → Bytes) (x y : Bytes) : Prop := x ≠ y ∧ H x = H y

instance (H : Bytes → Bytes) (x y : Bytes) : Decidable (Collision H x y) := by
  unfold Collision; infer_instance

/-- The four CORS headers of an allowed cross-origin request. -/
def corsHeaders (origin : Bytes) : List (Bytes × Bytes) :=
  [(ascii "Access-Control-Allow-Origin", origin),
   (ascii "Access-Control-Allow-Methods", ascii "POST, OPTIONS"),
   (ascii "Access-Control-Allow-Headers", ascii "Content-Type"),
   (ascii "Access-Control-Max-Age", ascii "86400")]

/-- White space, stated on the bytes of a text: the UTF-8 encodings of the 25
characters with the Unicode property White_Space (U+0009 to U+000D, U+0020,
U+0085, U+00A0, U+1680, U+2000 to U+200A, U+2028, U+2029, U+202F, U+205F,
U+3000). -/
def whiteSpaceTokens : List Bytes :=
  [[9], [10], [11], [12], [13], [32], [194, 133], [194, 160], [225, 154, 128],
   [226, 128, 128], [226, 128, 129], [226, 128, 130], [226, 128, 131], [226, 128, 132],
   [226, 128, 133], [226, 128, 134], [226, 128, 135], [226, 128, 136], [226, 128, 137],
   [226, 128, 138], [226, 128, 168], [226, 128, 169], [226, 128, 175], [226, 129, 159],
   [227, 128, 128]]

/-- Drops white-space characters from the front of `s`, one at a time. -/
def stripLeadingLoop : Nat → Bytes → Bytes
  | 0, s => s
  | fuel + 1, s =>
    match whiteSpaceTokens.find? (fun t => decide (t <+: s)) with
    | some t => stripLeadingLoop fuel (s.drop t.length)
    | none => s

/-- Drops white-space characters from the end of `s`, one at a time. -/
def stripTrailingLoop : Nat → Bytes → Bytes
  | 0, s => s
  | fuel + 1, s =>
    match whiteSpaceTokens.find? (fun t => decide (t <:+ s)) with
    | some t => stripTrailingLoop fuel (s.take (s.length - t.length))
    | none => s

/-- The text without the white-space characters at its front. -/
def stripLeading (s : Bytes) : Bytes := stripLeadingLoop s.length s

/-- The text without the white-space characters at its end. -/
def stripTrailing (s : Bytes) : Bytes := stripTrailingLoop s.length s

/-- The text without the white space around it. -/
def trimmedText (s : Bytes) : Bytes := stripTrailing (stripLeading s)

/-- The entries of a comma-separated list: the pieces of the text between its
commas (one piece more than there are commas). -/
def commaSeparated (list : Bytes) : List Bytes := List.splitOn (44 : Nat) list

/-- The origin guard as the specification words it: no origin, allowed and no
header; an origin, allowed exactly when the allow-list is the wildcard (`*` or
unset) or the origin equals one of the entries of the list, the entries being
the pieces between its commas, each without the white space around it; then
the four headers are set and `Access-Control-Allow-Origin` carries the origin;
otherwise not allowed and no header. -/
def originGuardReference (origin allowList : Bytes) : Bool × List (Bytes × Bytes) :=
  if origin = [] then (true, [])
  else if allowList = [] ∨ allowList = ascii "*"
      ∨ ∃ entry ∈ commaSeparated allowList, trimmedText entry = origin then
    (true, corsHeaders origin)
  else (false, [])

/-- All six SMTP settings `sendEmail` requires are present. -/
def smtpConfigured (env : List (Bytes × Bytes)) : Prop :=
  lookup env (ascii "SMTP_HOST") ≠ [] ∧ lookup env (ascii "SMTP_PORT") ≠ []
    ∧ lookup env (ascii "SMTP_USERNAME") ≠ [] ∧ lookup env (ascii "SMTP_PASSWORD") ≠ []
    ∧ lookup env (ascii "SENDER_EMAIL") ≠ [] ∧ lookup env (ascii "RECIPIENT_EMAIL") ≠ []

instance (env : List (Bytes × Bytes)) : Decidable (smtpConfigured env) := by
  unfold smtpConfigured; infer_instance

/-- The sanitization predicate of a stored string: no control character below
32 other than tab and newline, and none of the raw characters `<`, `>`, the
double quote and the apostrophe. -/
def Sanitized (s : Bytes) : Prop :=
  (∀ b ∈ s, b < 32 → b = 9 ∨ b = 10) ∧ 60 ∉ s ∧ 62 ∉ s ∧ 34 ∉ s ∧ 39 ∉ s

instance (s : Bytes) : Decidable (Sanitized s) := by unfold Sanitized; infer_instance

/-- Timestamps in descending order, most recent first. -/
def SortedDescending (entries : List SpamLogEntry) : Prop :=
  entries.Pairwise (fun a b => a.timestamp ≥ b.timestamp)

instance (entries : List SpamLogEntry) : Decidable (SortedDescending entries) := by
  unfold SortedDescending; infer_instance

/-- The well-formed records of a partition file, in file order. -/
def wellFormedRecords : List Chunk → List SpamLogEntry
  | [] => []
  | .record e :: rest => e :: wellFormedRecords rest
  | _ :: rest => wellFormedRecords rest

/-- A partition file made of well-formed records only. -/
def AllRecords (chunks : List Chunk) : Prop := ∀ c ∈ chunks, ∃ e, c = Chunk.record e

/-- None of the raw characters `<`, `>`, double quote and apostrophe occurs. -/
def NoRawMarkup (s : Bytes) : Prop := 60 ∉ s ∧ 62 ∉ s ∧ 34 ∉ s ∧ 39 ∉ s

instance (s : Bytes) : Decidable (NoRawMarkup s) := by unfold NoRawMarkup; infer_instance

/-- The HTML escape of one byte, as the specification understands escaping:
`&`, `<`, `>`, the double quote and the apostrophe become the entities
`&amp;`, `&lt;`, `&gt;`, `&#34;` and `&#39;`; every other byte stands for
itself. -/
def EscapedByte (b : Nat) (piece : Bytes) : Prop :=
  (b = 38 ∧ piece = ascii "&amp;") ∨ (b = 60 ∧ piece = ascii "&lt;")
    ∨ (b = 62 ∧ piece = ascii "&gt;") ∨ (b = 34 ∧ piece = ascii "&#34;")
    ∨ (b = 39 ∧ piece = ascii "&#39;")
    ∨ (b ≠ 38 ∧ b ≠ 60 ∧ b ≠ 62 ∧ b ≠ 34 ∧ b ≠ 39 ∧ piece = [b])

/-- The text `escaped` is `text` with every byte HTML-escaped, in order. -/
def EscapedText (text escaped : Bytes) : Prop :=
  ∃ pieces : List Bytes, List.Forall₂ EscapedByte text pieces ∧ escaped = pieces.flatten

/-- What the specification asks of a cell showing a plain field: it is not
empty, it holds none of the four raw characters, it is the text `(empty)` for
an empty field and the HTML-escaped field otherwise. -/
def FieldCell (field cell : Bytes) : Prop :=
  cell ≠ [] ∧ NoRawMarkup cell ∧ (field = [] → cell = ascii "(empty)")
    ∧ (field ≠ [] → EscapedText field cell)

/-- What one byte of a short message becomes in the message cell: a newline
the line break `<br>`, a carriage return nothing, any other byte its HTML
escape. -/
def MessagePiece (b : Nat) (piece : Bytes) : Prop :=
  (b = 10 ∧ piece = ascii "<br>") ∨ (b = 13 ∧ piece = [])
    ∨ (b ≠ 10 ∧ b ≠ 13 ∧ EscapedByte b piece ∧ NoRawMarkup piece)

/-- What the specification asks of the message cell. An empty message shows
the `(empty)` placeholder in its `span`. Otherwise, with `escaped` the
HTML-escaped message, which holds none of the four raw characters: when it is
longer than 200 bytes the cell is a prefix of it followed by the truncation
marker; when not, the cell is the message rendered byte by byte, every byte
as `MessagePiece` says. -/
def MessageCell (message cell : Bytes) : Prop :=
  (message = [] →
    cell = ascii "<span class=" ++ [34] ++ ascii "truncated" ++ [34] ++ ascii ">"
      ++ ascii "(empty)" ++ ascii "</span>")
  ∧ (message ≠ [] → ∃ escaped, EscapedText message escaped ∧ NoRawMarkup escaped
      ∧ (escaped.length > 200 → ∃ p, p <+: escaped ∧ cell = p ++ truncationMarker)
      ∧ (escaped.length ≤ 200 →
          ∃ pieces : List Bytes, List.Forall₂ MessagePiece message pieces
            ∧ cell = pieces.flatten))

/-- The table row of one entry: the time cell, then the sender-email, subject,
message, reason and IP cells, each as the specification asks. -/
def ReportRow (timeText : SpamLogEntry → Bytes) (entry : SpamLogEntry) (row : Bytes) : Prop :=
  ∃ email subject message reason ip : Bytes,
    FieldCell entry.senderEmail email ∧ FieldCell entry.subject subject
    ∧ MessageCell entry.message message
    ∧ FieldCell entry.reason reason ∧ FieldCell entry.clientIP ip
    ∧ row = ascii "<tr>"
        ++ (ascii "<td>" ++ timeText entry ++ ascii "</td>")
        ++ (ascii "<td>" ++ email ++ ascii "</td>")
        ++ (ascii "<td>" ++ subject ++ ascii "</td>")
        ++ (ascii "<td class=" ++ [34] ++ ascii "message-cell" ++ [34] ++ ascii ">"
            ++ message ++ ascii "</td>")
        ++ (ascii "<td>" ++ reason ++ ascii "</td>")
        ++ (ascii "<td>" ++ ip ++ ascii "</td>")
        ++ ascii "</tr>"

/-- The prefix `p` of `escaped` ends at a white-space boundary: the byte that
follows it in `escaped`, or its own last byte, is white space. -/
def EndsAtWordBoundary (escaped p : Bytes) : Prop :=
  isSpace (escaped.getD p.length 0) = true ∨ ∃ b, p.getLast? = some b ∧ isSpace b = true

instance (escaped p : Bytes) : Decidable (EndsAtWordBoundary escaped p) := by
  unfold EndsAtWordBoundary
  cases h : p.getLast? with
  | none => exact decidable_of_iff (isSpace (escaped.getD p.length 0) = true) (by simp)
  | some b =>
    exact decidable_of_iff (isSpace (escaped.getD p.length 0) = true ∨ isSpace b = true)
      (by simp)

/-- The name `rotateIfNeeded` gives a rotated partition: the name of the
active partition, a dot and the Unix time in decimal. -/
def rotatedName (logFile : Bytes) (nowUnix : Int) : Bytes := logFile ++ 46 :: formatInt nowUnix

/-! ## Concrete inputs -/

/-- A 16-byte token secret. -/
def sampleSecret : Bytes := ascii "0123456789abcdef"

/-- A toy hash with byte-valued digests and no collision on byte strings: the
text itself, every element reduced to a byte. -/
def sampleHash (x : Bytes) : Bytes := x.map (fun b => b % 256)

/-- A fully configured instance at time 1700000005 whose mail server accepts
every message; `CORS_ALLOW_ORIGINS` is unset. -/
def sampleWorld : World :=
  { env := [(ascii "SMTP_HOST", ascii "mail.example.com"), (ascii "SMTP_PORT", ascii "587"),
      (ascii "SMTP_USERNAME", ascii "user"), (ascii "SMTP_PASSWORD", ascii "pass"),
      (ascii "SENDER_EMAIL", ascii "noreply@example.com"),
      (ascii "RECIPIENT_EMAIL", ascii "owner@example.com")]
    now := 1700000005
    date := ascii "Tue, 14 Nov 2023 22:13:25 +0000"
    smtpSendMail := fun _ _ _ _ => none }

/-- A POST that declares the origin `*`. -/
def starOriginRequest : Request :=
  { method := ascii "POST"
    header := [(ascii "Origin", ascii "*")]
    remoteAddr := ascii "203.0.113.7:50000"
    form := [] }

/-- An environment whose allow-list names two origins, with white space
around the comma. -/
def twoOriginsEnv : List (Bytes × Bytes) :=
  [(ascii "CORS_ALLOW_ORIGINS", ascii "https://b.example , https://a.example")]

/-- A POST that declares the second origin of `twoOriginsEnv`. -/
def listedOriginRequest : Request :=
  { method := ascii "POST"
    header := [(ascii "Origin", ascii "https://a.example")]
    remoteAddr := ascii "203.0.113.7:50000"
    form := [] }

/-- A POST without an `Origin` header, with the token issued five seconds
earlier and the honeypot field `_gotcha` filled in. -/
def honeypotRequest (H : Bytes → Bytes) : Request :=
  { method := ascii "POST"
    header := []
    remoteAddr := ascii "203.0.113.7:50000"
    form := [(ascii "_ts_token", generateToken H sampleSecret 1700000000),
      (ascii "_gotcha", ascii "x"), (ascii "name", ascii "Bot"),
      (ascii "email", ascii "bot@example.com"), (ascii "message", ascii "buy now")] }

/-- A POST without an `Origin` header, with a fresh token, empty honeypot
fields and a name made of three spaces. -/
def blankNameRequest (H : Bytes → Bytes) : Request :=
  { method := ascii "POST"
    header := []
    remoteAddr := ascii "203.0.113.7:50000"
    form := [(ascii "_ts_token", generateToken H sampleSecret 1700000000),
      (ascii "name", ascii "   "), (ascii "email", ascii "a@example.com"),
      (ascii "message", ascii "hello")] }

/-- A record stamped 2023-11-14 20:13:20 UTC. -/
def olderEntry : SpamLogEntry :=
  { timestamp := 1699992800000000000, senderEmail := ascii "a@example.com",
    subject := ascii "first", message := ascii "one", reason := ascii "honeypot triggered",
    clientIP := ascii "203.0.113.7" }

/-- A record stamped one hour after `olderEntry`. -/
def newerEntry : SpamLogEntry :=
  { timestamp := 1699996400000000000, senderEmail := ascii "b@example.com",
    subject := ascii "second", message := ascii "two", reason := ascii "honeypot triggered",
    clientIP := ascii "203.0.113.8" }

/-- A log directory with one partition holding the two records in the order
`LogSpam` appended them. -/
def twoRecordDir : List LogFile :=
  [{ name := ascii "spam-2023-11-14.jsonl",
     content := some [Chunk.record olderEntry, Chunk.record newerEntry],
     size := 400, modTime := 1699996400000000000 }]

/-- A partition with a line that is not JSON between two records. -/
def garbageLineFile : LogFile :=
  { name := ascii "spam-2023-11-14.jsonl",
    content := some [Chunk.record olderEntry, Chunk.garbage, Chunk.record newerEntry],
    size := 420, modTime := 1699996400000000000 }

/-- The store configuration of `NewSpamLogger` without overrides. -/
def defaultLogger : SpamLogger := { maxSizeMB := 10, retentionDays := 10 }

/-- The active partition of 2023-11-14, grown to the 10 MiB limit, holding
among its lines the two records of that evening. -/
def fullPartition : LogFile :=
  { name := ascii "spam-2023-11-14.jsonl",
    content := some [Chunk.record olderEntry, Chunk.record newerEntry],
    size := 10485760, modTime := 1699996400000000000 }

/-- A message of 201 letters `a`, without any white space. -/
def longWord : Bytes := List.replicate 201 97

/-- The partition `fullPartition` after `rotateIfNeeded` renamed it at Unix time
1700000000. -/
def rotatedPartition : LogFile :=
  { name := rotatedName (ascii "spam-2023-11-14.jsonl") 1700000000,
    content := some [Chunk.record olderEntry, Chunk.record newerEntry],
    size := 10485760, modTime := 1699996400000000000 }

/-- A message of 160 letters, a space and 60 more letters. -/
def twoWords : Bytes := List.replicate 160 97 ++ 32 :: List.replicate 60 98

/-- The entry `LogSpam` builds at 2023-11-14 22:13:20 UTC for a submission from
`c@example.com`. -/
def latestEntry : SpamLogEntry :=
  { timestamp := 1700000000000000000, senderEmail := ascii "c@example.com",
    subject := ascii "third", message := ascii "three", reason := ascii "honeypot triggered",
    clientIP := ascii "203.0.113.9" }

/-! ## Token codec: lemmas -/

theorem decValue_ge (s : Bytes) (n : Nat) : n ≤ decValue s n := by
  induction s generalizing n with
  | nil => simp [decValue]
  | cons c cs ih =>
    have h := ih (n * 10 + (c - 48))
    simp only [decValue, List.foldl_cons] at h ⊢
    omega

theorem parseUintLoop_eq_some (s : Bytes) (n v : Nat) (hn : n ≤ maxUint64) :
    parseUintLoop s n = some v ↔ AllDigits s ∧ decValue s n = v ∧ v ≤ maxUint64 := by
  induction s generalizing n with
  | nil =>
    simp only [parseUintLoop, AllDigits, decValue, List.foldl_nil, Option.some.injEq]
    constructor
    · rintro rfl; exact ⟨by simp, rfl, hn⟩
    · rintro ⟨_, h, _⟩; exact h
  | cons c cs ih =>
    have hge := decValue_ge cs (n * 10 + (c - 48))
    have hcons : decValue (c :: cs) n = decValue cs (n * 10 + (c - 48)) := rfl
    simp only [maxUint64] at hn hge ⊢
    unfold parseUintLoop
    by_cases hc : 48 ≤ c ∧ c ≤ 57
    · simp only [hc, and_self, if_true, maxUint64]
      by_cases h1 : n ≥ 18446744073709551615 / 10 + 1
      · simp only [h1, if_true]
        constructor
        · intro h; cases h
        · rintro ⟨_, h, hv⟩; rw [hcons] at h; omega
      · simp only [h1, if_false]
        by_cases h2 : n * 10 + (c - 48) > 18446744073709551615
        · simp only [h2, if_true]
          constructor
          · intro h; cases h
          · rintro ⟨_, h, hv⟩; rw [hcons] at h; omega
        · simp only [h2, if_false]
          rw [ih (n * 10 + (c - 48)) (by simp only [maxUint64]; omega), hcons]
          simp only [AllDigits, List.mem_cons, forall_eq_or_imp, maxUint64]
          tauto
    · simp only [hc, if_false]
      constructor
      · intro h; cases h
      · rintro ⟨h, _⟩; exact absurd (h c (List.mem_cons_self _ _)) hc

theorem formatBits_allDigits (fuel u : Nat) (acc : Bytes) (hacc : AllDigits acc) :
    AllDigits (formatBits fuel u acc) := by
  induction fuel generalizing u acc with
  | zero => simpa [formatBits] using hacc
  | succ f ih =>
    unfold formatBits
    split
    · intro c hc
      rcases List.mem_cons.1 hc with rfl | hc
      · omega
      · exact hacc c hc
    · apply ih
      intro c hc
      rcases List.mem_cons.1 hc with rfl | hc
      · omega
      · exact hacc c hc

theorem formatBits_ne_nil (fuel u : Nat) (acc : Bytes) (h : u < fuel) :
    formatBits fuel u acc ≠ [] := by
  induction fuel generalizing u acc with
  | zero => omega
  | succ f ih =>
    unfold formatBits
    split
    · simp
    · apply ih; omega

theorem decValue_formatBits (fuel u : Nat) (acc : Bytes) (h : u < fuel) :
    decValue (formatBits fuel u acc) 0 = decValue acc u := by
  induction fuel generalizing u acc with
  | zero => omega
  | succ f ih =>
    unfold formatBits
    split
    · next hu =>
      simp only [decValue, List.foldl_cons]
      congr 1; omega
    · next hu =>
      rw [ih (u / 10) _ (by omega)]
      simp only [decValue, List.foldl_cons]
      congr 1; omega

theorem parseUint_formatUint (u : Nat) (hu : u ≤ maxUint64) :
    parseUint (formatUint u) = some u := by
  unfold parseUint formatUint
  rw [if_neg (formatBits_ne_nil _ _ _ (by omega))]
  rw [parseUintLoop_eq_some _ _ _ (by simp [maxUint64])]
  refine ⟨formatBits_allDigits _ _ _ (by intro c hc; cases hc), ?_, hu⟩
  rw [decValue_formatBits _ _ _ (by omega)]
  rfl

theorem formatUint_head (u : Nat) : ∃ c cs, formatUint u = c :: cs ∧ 48 ≤ c ∧ c ≤ 57 := by
  have h1 := formatBits_ne_nil (u + 1) u [] (by omega)
  have h2 := formatBits_allDigits (u + 1) u [] (by intro c hc; cases hc)
  unfold formatUint
  cases h : formatBits (u + 1) u [] with
  | nil => exact absurd h h1
  | cons c cs => exact ⟨c, cs, rfl, h2 c (by rw [h]; exact List.mem_cons_self _ _)⟩

theorem parseInt_formatInt (i : Int) (hi : IsInt64 i) : parseInt (formatInt i) = some i := by
  obtain ⟨hlo, hhi⟩ := hi
  simp only [minInt64, maxInt64] at hlo hhi
  unfold formatInt
  by_cases hneg : i < 0
  · rw [if_pos hneg]
    have hp := parseUint_formatUint i.natAbs (by simp only [maxUint64]; omega)
    simp [parseInt, hp]
    refine ⟨by omega, ?_⟩
    rw [abs_of_neg hneg]; omega
  · rw [if_neg hneg]
    obtain ⟨c, cs, hcs, hc1, hc2⟩ := formatUint_head i.natAbs
    have hp := parseUint_formatUint i.natAbs (by simp only [maxUint64]; omega)
    rw [hcs] at hp ⊢
    have h43 : c ≠ 43 := by omega
    have h45 : c ≠ 45 := by omega
    simp only [parseInt, h43, h45, or_self, if_false, hp]
    simp
    refine ⟨by omega, by omega⟩

theorem cut_append (sep : Nat) (a b : Bytes) (ha : sep ∉ a) :
    cut sep (a ++ sep :: b) = some (a, b) := by
  induction a with
  | nil => simp [cut]
  | cons c cs ih =>
    have hc : c ≠ sep := fun h => ha (by simp [h])
    have hcs : sep ∉ cs := fun h => ha (List.mem_cons_of_mem _ h)
    simp [cut, hc, ih hcs]

theorem cut_eq_none (sep : Nat) (s : Bytes) : cut sep s = none ↔ sep ∉ s := by
  induction s with
  | nil => simp [cut]
  | cons c cs ih =>
    unfold cut
    by_cases hc : c = sep
    · simp [hc]
    · rw [if_neg hc]
      cases h : cut sep cs with
      | none =>
        have := ih.1 h
        simp [this, Ne.symm hc]
      | some p =>
        have : ¬ sep ∉ cs := fun hn => by rw [ih.2 hn] at h; cases h
        simp only [not_not] at this
        simp [this]

theorem cut_eq_some (sep : Nat) (s a b : Bytes) (h : cut sep s = some (a, b)) :
    s = a ++ sep :: b ∧ sep ∉ a := by
  induction s generalizing a with
  | nil => simp [cut] at h
  | cons c cs ih =>
    unfold cut at h
    by_cases hc : c = sep
    · rw [if_pos hc] at h
      simp only [Option.some.injEq, Prod.mk.injEq] at h
      obtain ⟨rfl, rfl⟩ := h
      simp [hc]
    · rw [if_neg hc] at h
      cases hcut : cut sep cs with
      | none => rw [hcut] at h; cases h
      | some p =>
        obtain ⟨a', b'⟩ := p
        rw [hcut] at h
        simp only [Option.some.injEq, Prod.mk.injEq] at h
        obtain ⟨rfl, rfl⟩ := h
        obtain ⟨h1, h2⟩ := ih a' hcut
        refine ⟨by rw [h1]; rfl, ?_⟩
        intro hmem
        rcases List.mem_cons.1 hmem with h | h
        · exact hc h.symm
        · exact h2 h

theorem splitN_two_append (a b : Bytes) (ha : 58 ∉ a) :
    splitN 58 2 (a ++ 58 :: b) = [a, b] := by
  simp [splitN, cut_append 58 a b ha]

theorem splitN_two_of_not_mem (s : Bytes) (hs : 58 ∉ s) : splitN 58 2 s = [s] := by
  simp [splitN, (cut_eq_none 58 s).2 hs]

theorem lor_eq_zero (a b : Nat) : a ||| b = 0 ↔ a = 0 ∧ b = 0 := by
  constructor
  · intro h
    have hbits : ∀ i, (a ||| b).testBit i = false := by rw [h]; simp
    simp only [Nat.testBit_or, Bool.or_eq_false_iff] at hbits
    exact ⟨Nat.eq_of_testBit_eq (fun i => by simp [(hbits i).1]),
      Nat.eq_of_testBit_eq (fun i => by simp [(hbits i).2])⟩
  · rintro ⟨rfl, rfl⟩; rfl

theorem constantTimeLoop_eq_zero (a b : Bytes) (v : Nat) (hlen : a.length = b.length) :
    constantTimeLoop a b v = 0 ↔ v = 0 ∧ a = b := by
  induction a generalizing b v with
  | nil =>
    cases b with
    | nil => simp [constantTimeLoop]
    | cons y ys => simp at hlen
  | cons x xs ih =>
    cases b with
    | nil => simp at hlen
    | cons y ys =>
      simp only [List.length_cons, add_left_inj] at hlen
      simp only [constantTimeLoop, ih ys _ hlen, lor_eq_zero, Nat.xor_eq_zero, List.cons.injEq]
      tauto

theorem hmacEqual_iff (a b : Bytes) : hmacEqual a b = true ↔ a = b := by
  unfold hmacEqual
  by_cases hlen : a.length = b.length
  · simp [hlen, constantTimeLoop_eq_zero a b 0 hlen]
  · simp only [ne_eq, hlen, not_false_eq_true, if_true]
    constructor
    · intro h; cases h
    · intro h; exact absurd (congrArg List.length h) hlen

theorem formatInt_no_colon (i : Int) : 58 ∉ formatInt i := by
  have hd : ∀ u, 58 ∉ formatUint u := by
    intro u hmem
    have := formatBits_allDigits (u + 1) u [] (by intro c hc; cases hc) 58 hmem
    omega
  unfold formatInt
  split
  · intro hmem
    rcases List.mem_cons.1 hmem with h | h
    · omega
    · exact hd _ h
  · exact hd _

theorem validateToken_generateToken (H : Bytes → Bytes) (S : Bytes) (T now : Int)
    (hT : IsInt64 T) (hnow : IsInt64 now) :
    validateToken H S (generateToken H S T) now = decide (2 ≤ now - T ∧ now - T ≤ 900) := by
  unfold validateToken generateToken
  rw [splitN_two_append _ _ (formatInt_no_colon T)]
  simp only [parseInt_formatInt T hT]
  obtain ⟨h1, h2⟩ := hT
  obtain ⟨h3, h4⟩ := hnow
  simp only [minInt64, maxInt64] at h1 h2 h3 h4
  by_cases hk : 2 ≤ now - T ∧ now - T ≤ 900
  · have hc : ¬ (T > now ∨ wrapInt64 (now - T) < 2 ∨ wrapInt64 (now - T) > 900) := by
      unfold wrapInt64; omega
    rw [if_neg hc, decide_eq_true hk]
    exact (hmacEqual_iff _ _).2 rfl
  · have hc : T > now ∨ wrapInt64 (now - T) < 2 ∨ wrapInt64 (now - T) > 900 := by
      unfold wrapInt64; omega
    rw [if_pos hc, decide_eq_false hk]

theorem b64char_bound (n : Nat) : b64char n < 123 ∧ b64char n ≠ 58 := by
  unfold b64char
  split_ifs <;> omega

theorem base64Encode_mem (s : Bytes) : ∀ b ∈ base64Encode s, b < 123 ∧ b ≠ 58 := by
  induction s using base64Encode.induct with
  | case1 => intro b hb; simp [base64Encode] at hb
  | case2 a =>
    intro b hb
    simp only [base64Encode, List.mem_cons, List.mem_singleton] at hb
    rcases hb with rfl | rfl | rfl | rfl | h
    · exact b64char_bound _
    · exact b64char_bound _
    · omega
    · omega
    · cases h
  | case3 a c =>
    intro b hb
    simp only [base64Encode, List.mem_cons, List.mem_singleton] at hb
    rcases hb with rfl | rfl | rfl | rfl | h
    · exact b64char_bound _
    · exact b64char_bound _
    · exact b64char_bound _
    · omega
    · cases h
  | case4 a c d rest ih =>
    intro b hb
    simp only [base64Encode, List.mem_cons] at hb
    rcases hb with rfl | rfl | rfl | rfl | h
    · exact b64char_bound _
    · exact b64char_bound _
    · exact b64char_bound _
    · exact b64char_bound _
    · exact ih b h

theorem base64Encode_length (s : Bytes) : (base64Encode s).length = 4 * ((s.length + 2) / 3) := by
  induction s using base64Encode.induct with
  | case1 => simp [base64Encode]
  | case2 a => simp [base64Encode]
  | case3 a c => simp [base64Encode]
  | case4 a c d rest ih =>
    simp only [base64Encode, List.length_cons, ih]
    omega

theorem tokenMAC_no_colon (H : Bytes → Bytes) (S msg : Bytes) : 58 ∉ tokenMAC H S msg := by
  intro h
  exact (base64Encode_mem _ 58 h).2 rfl

/-- An accepted token carries the MAC of its timestamp text, and that text
parses to a time inside the window. -/
theorem validateToken_append_eq_true (H : Bytes → Bytes) (S ts mac : Bytes) (now : Int)
    (hts : 58 ∉ ts) :
    validateToken H S (ts ++ 58 :: mac) now = true ↔
      (∃ t, parseInt ts = some t ∧
        ¬ (t > now ∨ wrapInt64 (now - t) < 2 ∨ wrapInt64 (now - t) > 900)) ∧
      tokenMAC H S ts = mac := by
  unfold validateToken
  rw [splitN_two_append _ _ hts]
  dsimp only
  cases hp : parseInt ts with
  | none => simp
  | some t =>
    dsimp only
    by_cases hw : t > now ∨ wrapInt64 (now - t) < 2 ∨ wrapInt64 (now - t) > 900
    · rw [if_pos hw]
      constructor
      · intro h; cases h
      · rintro ⟨⟨t1, ht1, hn⟩, _⟩
        cases ht1
        exact absurd hw hn
    · rw [if_neg hw, hmacEqual_iff]
      constructor
      · intro h; exact ⟨⟨t, rfl, hw⟩, h⟩
      · rintro ⟨_, h⟩; exact h

/-- A token whose MAC text contains a colon is rejected. -/
theorem validateToken_colon_in_mac (H : Bytes → Bytes) (S ts mac : Bytes) (now : Int)
    (hts : 58 ∉ ts) (hmac : 58 ∈ mac) : validateToken H S (ts ++ 58 :: mac) now = false := by
  by_contra hne
  have htrue : validateToken H S (ts ++ 58 :: mac) now = true := by
    cases h : validateToken H S (ts ++ 58 :: mac) now
    · exact absurd h hne
    · rfl
  have := ((validateToken_append_eq_true H S ts mac now hts).1 htrue).2
  exact tokenMAC_no_colon H S ts (this ▸ hmac)

theorem parseUint_eq_ite (s : Bytes) :
    parseUint s =
      if s ≠ [] ∧ AllDigits s ∧ decValue s 0 ≤ maxUint64 then some (decValue s 0) else none := by
  unfold parseUint
  by_cases hs : s = []
  · simp [hs]
  · rw [if_neg hs]
    by_cases h : AllDigits s ∧ decValue s 0 ≤ maxUint64
    · rw [if_pos ⟨hs, h⟩]
      exact (parseUintLoop_eq_some s 0 _ (by simp [maxUint64])).2 ⟨h.1, rfl, h.2⟩
    · rw [if_neg (fun hh => h hh.2)]
      cases hp : parseUintLoop s 0 with
      | none => rfl
      | some v =>
        obtain ⟨h1, h2, h3⟩ := (parseUintLoop_eq_some s 0 v (by simp [maxUint64])).1 hp
        exact absurd ⟨h1, h2 ▸ h3⟩ h

theorem all_digits_iff (s : Bytes) :
    s.all (fun c => decide (48 ≤ c ∧ c ≤ 57)) = true ↔ AllDigits s := by
  simp [AllDigits, List.all_eq_true]

/-- The sign-and-range step of `ParseInt` succeeds exactly on a non-empty
digit string whose signed value is an `int64`. -/
theorem parseSigned_isSome (neg : Bool) (body : Bytes) :
    (match parseUint body with
      | none => (none : Option Int)
      | some un =>
        if (!neg) = true ∧ un ≥ 9223372036854775808 then none
        else if neg = true ∧ un > 9223372036854775808 then none
        else some (if neg = true then -(un : Int) else (un : Int))).isSome
    = (decide (body ≠ []) && body.all (fun c => decide (48 ≤ c ∧ c ≤ 57))
        && decide (IsInt64 (if neg = true then -(decValue body 0 : Int) else (decValue body 0 : Int)))) := by
  rw [parseUint_eq_ite]
  have hall := all_digits_iff body
  generalize decValue body 0 = v at *
  by_cases h1 : body = []
  · simp [h1]
  · by_cases h2 : AllDigits body
    · rw [hall.2 h2]
      by_cases h3 : v ≤ maxUint64
      · rw [if_pos ⟨h1, h2, h3⟩]
        cases neg
        · by_cases h4 : v ≥ 9223372036854775808
          · have : ¬ IsInt64 (v : Int) := by unfold IsInt64 maxInt64; omega
            simp [h1, h4, this]
          · have : IsInt64 (v : Int) := by unfold IsInt64 minInt64 maxInt64; omega
            simp [h1, h4, this]
        · by_cases h4 : v > 9223372036854775808
          · have : ¬ IsInt64 (-(v : Int)) := by unfold IsInt64 minInt64; omega
            simp [h1, h4, this]
          · have : IsInt64 (-(v : Int)) := by unfold IsInt64 minInt64 maxInt64; omega
            simp [h1, h4, this]
      · rw [if_neg (fun hh => h3 hh.2.2)]
        simp only [maxUint64] at h3
        have : ¬ IsInt64 (if neg = true then -(v : Int) else (v : Int)) := by
          unfold IsInt64 minInt64 maxInt64
          cases neg <;> simp <;> omega
        simp [this]
    · rw [if_neg (fun hh => h2 hh.2.1)]
      have : body.all (fun c => decide (48 ≤ c ∧ c ≤ 57)) = false := by
        cases hb : body.all (fun c => decide (48 ≤ c ∧ c ≤ 57))
        · rfl
        · exact absurd (hall.1 hb) h2
      rw [this]
      simp

theorem parseInt_isSome (s : Bytes) : (parseInt s).isSome = isDecimalInt64 s := by
  cases s with
  | nil => rfl
  | cons c cs =>
    by_cases h45 : c = 45
    · subst h45
      have := parseSigned_isSome true cs
      simpa [parseInt, isDecimalInt64] using this
    · by_cases h43 : c = 43
      · subst h43
        have := parseSigned_isSome false cs
        simpa [parseInt, isDecimalInt64] using this
      · have hiso : isDecimalInt64 (c :: cs) =
            ((c :: cs).all (fun c => decide (48 ≤ c ∧ c ≤ 57))
              && decide (IsInt64 (decValue (c :: cs) 0 : Int))) := by
          unfold isDecimalInt64
          split
          · rename_i heq; cases heq
          · rename_i heq; cases heq; exact absurd rfl h45
          · rename_i heq; cases heq; exact absurd rfl h43
          · rfl
        have := parseSigned_isSome false (c :: cs)
        rw [hiso]
        simpa [parseInt, h43, h45] using this

theorem parseInt_eq_none_of_not_decimal (s : Bytes) (h : isDecimalInt64 s = false) :
    parseInt s = none := by
  have := parseInt_isSome s
  rw [h] at this
  cases hp : parseInt s with
  | none => rfl
  | some v => rw [hp] at this; cases this

theorem validateToken_congr (H : Bytes → Bytes) (S1 S2 : Bytes)
    (h : ∀ m, tokenMAC H S1 m = tokenMAC H S2 m) (token : Bytes) (now : Int) :
    validateToken H S1 token now = validateToken H S2 token now := by
  unfold validateToken
  simp only [h]

theorem takeWhile_before_colon (a b : Bytes) (ha : 58 ∉ a) :
    timestampPart (a ++ 58 :: b) = a := by
  unfold timestampPart
  induction a with
  | nil => simp
  | cons c cs ih =>
    have hc : c ≠ 58 := fun h => ha (by simp [h])
    have hcs : 58 ∉ cs := fun h => ha (List.mem_cons_of_mem _ h)
    have ih2 := ih hcs
    simp only [decide_not] at ih2
    simp [List.takeWhile_cons, hc, ih2]

theorem lookup_absent (form : List (Bytes × Bytes)) (key : Bytes)
    (h : ∀ p ∈ form, p.1 ≠ key) : lookup form key = [] := by
  unfold lookup
  have : form.find? (fun p => decide (p.1 = key)) = none := by
    rw [List.find?_eq_none]
    intro p hp
    simpa using h p hp
  rw [this]

/-! ## HMAC and base64: injectivity up to a hash collision -/

theorem b64char_inj (n m : Nat) (hn : n < 64) (hm : m < 64) (h : b64char n = b64char m) :
    n = m := by
  unfold b64char at h
  split_ifs at h <;> omega

theorem b64char_ne_pad (n : Nat) : b64char n ≠ 61 := by
  unfold b64char
  split_ifs <;> omega

/-- Base64 text determines the bytes it encodes. -/
theorem base64Encode_inj (x y : Bytes) (hx : ∀ b ∈ x, b < 256) (hy : ∀ b ∈ y, b < 256)
    (h : base64Encode x = base64Encode y) : x = y := by
  induction x using base64Encode.induct generalizing y with
  | case1 =>
    rcases y with _ | ⟨a', _ | ⟨b', _ | ⟨c', rest'⟩⟩⟩ <;> simp [base64Encode] at h ⊢
  | case2 a =>
    have ha := hx a (by simp)
    rcases y with _ | ⟨a', _ | ⟨b', _ | ⟨c', rest'⟩⟩⟩
    · simp [base64Encode] at h
    · have ha' := hy a' (by simp)
      simp only [base64Encode, List.cons.injEq, and_true] at h
      have h1 := b64char_inj _ _ (by omega) (by omega) h.1
      have h2 := b64char_inj _ _ (by omega) (by omega) h.2
      simp only [List.cons.injEq, and_true]
      omega
    · simp only [base64Encode, List.cons.injEq, and_true] at h
      exact absurd h.2.2.symm (b64char_ne_pad _)
    · simp only [base64Encode, List.cons.injEq] at h
      exact absurd h.2.2.1.symm (b64char_ne_pad _)
  | case3 a b =>
    have ha := hx a (by simp)
    have hb := hx b (by simp)
    rcases y with _ | ⟨a', _ | ⟨b', _ | ⟨c', rest'⟩⟩⟩
    · simp [base64Encode] at h
    · simp only [base64Encode, List.cons.injEq, and_true] at h
      exact absurd h.2.2 (b64char_ne_pad _)
    · have ha' := hy a' (by simp)
      have hb' := hy b' (by simp)
      simp only [base64Encode, List.cons.injEq, and_true] at h
      have h1 := b64char_inj _ _ (by omega) (by omega) h.1
      have h2 := b64char_inj _ _ (by omega) (by omega) h.2.1
      have h3 := b64char_inj _ _ (by omega) (by omega) h.2.2
      simp only [List.cons.injEq, and_true]
      omega
    · simp only [base64Encode, List.cons.injEq] at h
      exact absurd h.2.2.2.1.symm (b64char_ne_pad _)
  | case4 a b c rest ih =>
    have ha := hx a (by simp)
    have hb := hx b (by simp)
    have hc := hx c (by simp)
    rcases y with _ | ⟨a', _ | ⟨b', _ | ⟨c', rest'⟩⟩⟩
    · simp [base64Encode] at h
    · simp only [base64Encode, List.cons.injEq] at h
      exact absurd h.2.2.1 (b64char_ne_pad _)
    · simp only [base64Encode, List.cons.injEq] at h
      exact absurd h.2.2.2.1 (b64char_ne_pad _)
    · have ha' := hy a' (by simp)
      have hb' := hy b' (by simp)
      have hc' := hy c' (by simp)
      simp only [base64Encode, List.cons.injEq] at h
      have h1 := b64char_inj _ _ (by omega) (by omega) h.1
      have h2 := b64char_inj _ _ (by omega) (by omega) h.2.1
      have h3 := b64char_inj _ _ (by omega) (by omega) h.2.2.1
      have h4 := b64char_inj _ _ (by omega) (by omega) h.2.2.2.1
      have hrest := ih rest' (fun b hb => hx b (by simp [hb])) (fun b hb => hy b (by simp [hb]))
        h.2.2.2.2
      simp only [List.cons.injEq]
      refine ⟨by omega, by omega, by omega, hrest⟩

/-- The key block of HMAC is always 64 bytes long. -/
theorem hmacKeyBlock_length (H : Bytes → Bytes) (key : Bytes) :
    (hmacKeyBlock H key).length = 64 := by
  unfold hmacKeyBlock
  simp only [List.length_take, List.length_append, List.length_replicate]
  omega

/-- The key block of a secret of at most 64 bytes is the secret followed by
zero bytes: such secrets share a key block exactly when they differ only by
trailing zero bytes. -/
theorem hmacKeyBlock_short (H : Bytes → Bytes) (key : Bytes) (h : key.length ≤ 64) :
    hmacKeyBlock H key = key ++ List.replicate (64 - key.length) 0 := by
  unfold hmacKeyBlock
  rw [if_neg (by omega)]
  apply List.take_of_length_le
  rw [List.length_append, List.length_replicate]
  omega

theorem xor_map_inj (c : Nat) (a b : Bytes)
    (h : a.map (fun x => x ^^^ c) = b.map (fun x => x ^^^ c)) : a = b := by
  induction a generalizing b with
  | nil =>
    cases b with
    | nil => rfl
    | cons y ys => simp at h
  | cons x xs ih =>
    cases b with
    | nil => simp at h
    | cons y ys =>
      simp only [List.map_cons, List.cons.injEq] at h
      have hxy : x = y := by
        have := congrArg (fun z => z ^^^ c) h.1
        simpa [Nat.xor_assoc] using this
      rw [hxy, ih ys h.2]

theorem hmacSum_eq (H : Bytes → Bytes) (key msg : Bytes) :
    hmacSum H key msg = H (hmacOuterInput H key msg) := rfl

/-- Equal MAC texts come from equal digests of the outer HMAC texts. -/
theorem tokenMAC_inj (H : Bytes → Bytes) (hbytes : ∀ x, ∀ b ∈ H x, b < 256)
    (S1 S2 m1 m2 : Bytes) (h : tokenMAC H S1 m1 = tokenMAC H S2 m2) :
    H (hmacOuterInput H S1 m1) = H (hmacOuterInput H S2 m2) := by
  unfold tokenMAC at h
  rw [hmacSum_eq, hmacSum_eq] at h
  exact base64Encode_inj _ _ (hbytes _) (hbytes _) h

/-- Two messages with the same MAC text under one key exhibit a collision of
the hash, on the inner or on the outer HMAC text. -/
theorem tokenMAC_collision (H : Bytes → Bytes) (hbytes : ∀ x, ∀ b ∈ H x, b < 256)
    (S m1 m2 : Bytes) (hne : m1 ≠ m2) (h : tokenMAC H S m1 = tokenMAC H S m2) :
    Collision H (hmacInnerInput H S m1) (hmacInnerInput H S m2)
      ∨ Collision H (hmacOuterInput H S m1) (hmacOuterInput H S m2) := by
  have hd := tokenMAC_inj H hbytes S S m1 m2 h
  by_cases hout : hmacOuterInput H S m1 = hmacOuterInput H S m2
  · left
    refine ⟨?_, ?_⟩
    · intro hin
      unfold hmacInnerInput at hin
      exact hne (List.append_cancel_left hin)
    · unfold hmacOuterInput at hout
      exact List.append_cancel_left hout
  · exact Or.inr ⟨hout, hd⟩

/-- Keys with different key blocks have different outer HMAC texts. -/
theorem hmacOuterInput_ne (H : Bytes → Bytes) (S1 S2 m1 m2 : Bytes)
    (hkey : hmacKeyBlock H S1 ≠ hmacKeyBlock H S2) :
    hmacOuterInput H S1 m1 ≠ hmacOuterInput H S2 m2 := by
  intro h
  unfold hmacOuterInput at h
  have hlen : ((hmacKeyBlock H S1).map (fun b => b ^^^ 92)).length
      = ((hmacKeyBlock H S2).map (fun b => b ^^^ 92)).length := by
    rw [List.length_map, List.length_map, hmacKeyBlock_length, hmacKeyBlock_length]
  exact hkey (xor_map_inj 92 _ _ (List.append_inj h hlen).1)

theorem sampleHash_bytes : ∀ x, ∀ b ∈ sampleHash x, b < 256 := by
  intro x b hb
  unfold sampleHash at hb
  obtain ⟨a, _, ha⟩ := List.mem_map.1 hb
  omega

/-! ## `strings.Split` and `strings.TrimSpace` against their specification -/

theorem split_eq_splitOn_aux (sep : Nat) (s acc : Bytes) :
    splitAux sep s acc = List.splitOnP.go (fun x => x == sep) s acc := by
  induction s generalizing acc with
  | nil => simp [splitAux, List.splitOnP.go]
  | cons c cs ih =>
    unfold splitAux
    rw [List.splitOnP.go]
    by_cases h : c = sep
    · simp [h, ih]
    · simp [h, ih]

theorem split_eq_splitOn (sep : Nat) (s : Bytes) : split sep s = s.splitOn sep := by
  unfold split List.splitOn List.splitOnP
  exact split_eq_splitOn_aux sep s []

/-- The shapes of a decoded rune that is not a single ASCII byte. -/
theorem decodeRune_shape (s0 : Nat) (rest : Bytes) (h : ¬ s0 < 128) :
    decodeRune (s0 :: rest) = (runeError, 1)
    ∨ (∃ s1 r1, rest = s1 :: r1 ∧ 194 ≤ s0 ∧ s0 < 224 ∧ 128 ≤ s1 ∧ s1 ≤ 191
        ∧ decodeRune (s0 :: rest) = (s0 % 32 * 64 + s1 % 64, 2))
    ∨ (∃ s1 s2 r2, rest = s1 :: s2 :: r2 ∧ 224 ≤ s0 ∧ s0 < 240 ∧ 128 ≤ s1 ∧ s1 ≤ 191
        ∧ (s0 = 224 → 160 ≤ s1) ∧ (s0 = 237 → s1 ≤ 159) ∧ 128 ≤ s2 ∧ s2 ≤ 191
        ∧ decodeRune (s0 :: rest) = (s0 % 16 * 4096 + s1 % 64 * 64 + s2 % 64, 3))
    ∨ (∃ s1 s2 s3 r3, rest = s1 :: s2 :: s3 :: r3 ∧ 240 ≤ s0 ∧ s0 < 245 ∧ 128 ≤ s1 ∧ s1 ≤ 191
        ∧ (s0 = 240 → 144 ≤ s1) ∧ (s0 = 244 → s1 ≤ 143) ∧ 128 ≤ s2 ∧ s2 ≤ 191
        ∧ 128 ≤ s3 ∧ s3 ≤ 191
        ∧ decodeRune (s0 :: rest)
          = (s0 % 8 * 262144 + s1 % 64 * 4096 + s2 % 64 * 64 + s3 % 64, 4)) := by
  simp only [decodeRune, h, if_false]
  have hsz : ((if s0 < 224 then 2 else if s0 < 240 then 3 else 4) ≤ 2 ↔ s0 < 224) ∧
      ((if s0 < 224 then 2 else if s0 < 240 then 3 else 4) ≤ 3 ↔ s0 < 240) := by
    split_ifs <;> omega
  have hlo : 128 ≤ (if s0 = 224 then 160 else if s0 = 240 then 144 else 128) ∧
      (s0 = 224 → 160 ≤ (if s0 = 224 then 160 else if s0 = 240 then 144 else 128)) ∧
      (s0 = 240 → 144 ≤ (if s0 = 224 then 160 else if s0 = 240 then 144 else 128)) := by
    split_ifs <;> omega
  have hhi : (if s0 = 237 then 159 else if s0 = 244 then 143 else 191) ≤ 191 ∧
      (s0 = 237 → (if s0 = 237 then 159 else if s0 = 244 then 143 else 191) ≤ 159) ∧
      (s0 = 244 → (if s0 = 237 then 159 else if s0 = 244 then 143 else 191) ≤ 143) := by
    split_ifs <;> omega
  generalize (if s0 < 224 then 2 else if s0 < 240 then 3 else 4) = sz at *
  generalize (if s0 = 224 then 160 else if s0 = 240 then 144 else 128) = lo at *
  generalize (if s0 = 237 then 159 else if s0 = 244 then 143 else 191) = hi at *
  by_cases hbad : s0 < 194 ∨ 245 ≤ s0
  · rw [if_pos hbad]; exact Or.inl rfl
  rw [if_neg hbad]
  by_cases hlen : rest.length + 1 < sz
  · rw [if_pos hlen]; exact Or.inl rfl
  rw [if_neg hlen]
  cases rest with
  | nil => exact Or.inl rfl
  | cons s1 r1 =>
    dsimp only
    by_cases h1 : s1 < lo ∨ hi < s1
    · rw [if_pos h1]; exact Or.inl rfl
    rw [if_neg h1]
    by_cases hs2 : sz ≤ 2
    · rw [if_pos hs2]
      exact Or.inr (Or.inl ⟨s1, r1, rfl, by omega, by omega, by omega, by omega, rfl⟩)
    rw [if_neg hs2]
    cases r1 with
    | nil => exact Or.inl rfl
    | cons s2 r2 =>
      dsimp only
      by_cases h2 : s2 < 128 ∨ 191 < s2
      · rw [if_pos h2]; exact Or.inl rfl
      rw [if_neg h2]
      by_cases hs3 : sz ≤ 3
      · rw [if_pos hs3]
        exact Or.inr (Or.inr (Or.inl ⟨s1, s2, r2, rfl, by omega, by omega, by omega, by omega,
          by omega, by omega, by omega, by omega, rfl⟩))
      rw [if_neg hs3]
      cases r2 with
      | nil => exact Or.inl rfl
      | cons s3 r3 =>
        dsimp only
        by_cases h3 : s3 < 128 ∨ 191 < s3
        · rw [if_pos h3]; exact Or.inl rfl
        rw [if_neg h3]
        exact Or.inr (Or.inr (Or.inr ⟨s1, s2, s3, r3, rfl, by omega, by omega, by omega,
          by omega, by omega, by omega, by omega, by omega, by omega, by omega, rfl⟩))

theorem decodeRune_one (s0 : Nat) (rest : Bytes) (h : s0 < 128) :
    decodeRune (s0 :: rest) = (s0, 1) := by
  simp [decodeRune, h]

theorem decodeRune_two (s0 s1 : Nat) (rest : Bytes) (h0 : 194 ≤ s0) (h0b : s0 < 224)
    (h1 : 128 ≤ s1) (h1b : s1 ≤ 191) :
    decodeRune (s0 :: s1 :: rest) = (s0 % 32 * 64 + s1 % 64, 2) := by
  have e1 : ¬ s0 < 128 := by omega
  have e2 : ¬ (s0 < 194 ∨ 245 ≤ s0) := by omega
  have e3 : ¬ s0 = 224 := by omega
  have e4 : ¬ s0 = 240 := by omega
  have e5 : ¬ s0 = 237 := by omega
  have e6 : ¬ s0 = 244 := by omega
  have e7 : ¬ ((s1 :: rest).length + 1 < 2) := by simp
  have e8 : ¬ (s1 < 128 ∨ 191 < s1) := by omega
  simp only [decodeRune, e1, e2, e3, e4, e5, e6, e7, e8, h0b, if_true, if_false, le_refl]

theorem decodeRune_three (s0 s1 s2 : Nat) (rest : Bytes) (h0 : 224 ≤ s0) (h0b : s0 < 240)
    (h1 : 128 ≤ s1) (h1b : s1 ≤ 191) (hlo : s0 = 224 → 160 ≤ s1) (hhi : s0 = 237 → s1 ≤ 159)
    (h2 : 128 ≤ s2) (h2b : s2 ≤ 191) :
    decodeRune (s0 :: s1 :: s2 :: rest) = (s0 % 16 * 4096 + s1 % 64 * 64 + s2 % 64, 3) := by
  have e1 : ¬ s0 < 128 := by omega
  have e2 : ¬ (s0 < 194 ∨ 245 ≤ s0) := by omega
  have e3 : ¬ s0 < 224 := by omega
  have e4 : ¬ s0 = 240 := by omega
  have e6 : ¬ s0 = 244 := by omega
  have e7 : ¬ ((s1 :: s2 :: rest).length + 1 < 3) := by simp
  have e8 : ¬ (s1 < (if s0 = 224 then 160 else 128) ∨ (if s0 = 237 then 159 else 191) < s1) := by
    split_ifs <;> omega
  have e9 : ¬ (s2 < 128 ∨ 191 < s2) := by omega
  have e10 : ¬ (3 ≤ 2) := by omega
  simp only [decodeRune, e1, e2, e3, e4, e6, e7, e8, e9, e10, h0b, if_true, if_false, le_refl]

theorem decodeRune_four (s0 s1 s2 s3 : Nat) (rest : Bytes) (h0 : 240 ≤ s0) (h0b : s0 < 245)
    (h1 : 128 ≤ s1) (h1b : s1 ≤ 191) (hlo : s0 = 240 → 144 ≤ s1) (hhi : s0 = 244 → s1 ≤ 143)
    (h2 : 128 ≤ s2) (h2b : s2 ≤ 191) (h3 : 128 ≤ s3) (h3b : s3 ≤ 191) :
    decodeRune (s0 :: s1 :: s2 :: s3 :: rest)
      = (s0 % 8 * 262144 + s1 % 64 * 4096 + s2 % 64 * 64 + s3 % 64, 4) := by
  have e1 : ¬ s0 < 128 := by omega
  have e2 : ¬ (s0 < 194 ∨ 245 ≤ s0) := by omega
  have e3 : ¬ s0 < 224 := by omega
  have e3b : ¬ s0 < 240 := by omega
  have e4 : ¬ s0 = 224 := by omega
  have e6 : ¬ s0 = 237 := by omega
  have e7 : ¬ ((s1 :: s2 :: s3 :: rest).length + 1 < 4) := by simp
  have e8 : ¬ (s1 < (if s0 = 240 then 144 else 128) ∨ (if s0 = 244 then 143 else 191) < s1) := by
    split_ifs <;> omega
  have e9 : ¬ (s2 < 128 ∨ 191 < s2) := by omega
  have e9b : ¬ (s3 < 128 ∨ 191 < s3) := by omega
  have e10 : ¬ (4 ≤ 2) := by omega
  have e11 : ¬ (4 ≤ 3) := by omega
  simp only [decodeRune, e1, e2, e3, e3b, e4, e6, e7, e8, e9, e9b, e10, e11, if_true, if_false]

/-- A byte from 128 on that no continuation byte follows is ill-formed. -/
theorem decodeRune_alone (s0 : Nat) (rest : Bytes) (h0 : 128 ≤ s0)
    (hrest : ∀ b ∈ rest.head?, b < 128 ∨ 191 < b) :
    decodeRune (s0 :: rest) = (runeError, 1) := by
  rcases decodeRune_shape s0 rest (by omega) with hd | ⟨s1, r1, rfl, h1, h2, h3, h4, _⟩
      | ⟨s1, s2, r2, rfl, h1, h2, h3, h4, _⟩
      | ⟨s1, s2, s3, r3, rfl, h1, h2, h3, h4, _⟩
  · exact hd
  · have := hrest s1 rfl; omega
  · have := hrest s1 rfl; omega
  · have := hrest s1 rfl; omega

theorem isSpace_iff (r : Nat) : isSpace r = true ↔
    (r = 9 ∨ r = 10 ∨ r = 11 ∨ r = 12 ∨ r = 13 ∨ r = 32 ∨ r = 133 ∨ r = 160 ∨ r = 5760
    ∨ (8192 ≤ r ∧ r ≤ 8202) ∨ r = 8232 ∨ r = 8233 ∨ r = 8239 ∨ r = 8287 ∨ r = 12288) := by
  unfold isSpace
  exact decide_eq_true_iff

theorem isSpace_runeError : ¬ isSpace runeError = true := by decide

theorem space_two (s0 s1 r : Nat) (h1 : 194 ≤ s0) (h2 : s0 < 224) (h3 : 128 ≤ s1)
    (h4 : s1 ≤ 191) (hr : r + 12416 = s0 * 64 + s1)
    (hsp : r = 9 ∨ r = 10 ∨ r = 11 ∨ r = 12 ∨ r = 13 ∨ r = 32 ∨ r = 133 ∨ r = 160 ∨ r = 5760
      ∨ (8192 ≤ r ∧ r ≤ 8202) ∨ r = 8232 ∨ r = 8233 ∨ r = 8239 ∨ r = 8287 ∨ r = 12288) :
    s0 = 194 ∧ (s1 = 133 ∨ s1 = 160) := by
  have hlow : 128 ≤ r ∧ r < 2048 := by omega
  have h2 : r = 133 ∨ r = 160 := by omega
  rcases h2 with h | h
  · exact ⟨by omega, Or.inl (by omega)⟩
  · exact ⟨by omega, Or.inr (by omega)⟩

theorem space_three (s0 s1 s2 r : Nat) (h1 : 224 ≤ s0) (h2 : s0 < 240) (h3 : 128 ≤ s1)
    (h4 : s1 ≤ 191) (h5 : s0 = 224 → 160 ≤ s1) (h6 : 128 ≤ s2) (h7 : s2 ≤ 191)
    (hr : r + 925824 = s0 * 4096 + s1 * 64 + s2)
    (hsp : r = 9 ∨ r = 10 ∨ r = 11 ∨ r = 12 ∨ r = 13 ∨ r = 32 ∨ r = 133 ∨ r = 160 ∨ r = 5760
      ∨ (8192 ≤ r ∧ r ≤ 8202) ∨ r = 8232 ∨ r = 8233 ∨ r = 8239 ∨ r = 8287 ∨ r = 12288) :
    (s0 = 225 ∧ s1 = 154 ∧ s2 = 128)
      ∨ (s0 = 226 ∧ s1 = 128 ∧ (s2 = 128 ∨ s2 = 129 ∨ s2 = 130 ∨ s2 = 131 ∨ s2 = 132
          ∨ s2 = 133 ∨ s2 = 134 ∨ s2 = 135 ∨ s2 = 136 ∨ s2 = 137 ∨ s2 = 138 ∨ s2 = 168
          ∨ s2 = 169 ∨ s2 = 175))
      ∨ (s0 = 226 ∧ s1 = 129 ∧ s2 = 159) ∨ (s0 = 227 ∧ s1 = 128 ∧ s2 = 128) := by
  have hlow : 2048 ≤ r := by omega
  have h2 : r = 5760 ∨ (8192 ≤ r ∧ r ≤ 8202) ∨ r = 8232 ∨ r = 8233 ∨ r = 8239 ∨ r = 8287
      ∨ r = 12288 := by omega
  rcases h2 with h | h | h | h | h | h | h
  · exact Or.inl ⟨by omega, by omega, by omega⟩
  · have e0 : s0 = 226 := by omega
    have e1 : s1 = 128 := by omega
    have e2 : 128 ≤ s2 ∧ s2 ≤ 138 := by omega
    exact Or.inr (Or.inl ⟨e0, e1, by omega⟩)
  · exact Or.inr (Or.inl ⟨by omega, by omega, by omega⟩)
  · exact Or.inr (Or.inl ⟨by omega, by omega, by omega⟩)
  · exact Or.inr (Or.inl ⟨by omega, by omega, by omega⟩)
  · exact Or.inr (Or.inr (Or.inl ⟨by omega, by omega, by omega⟩))
  · exact Or.inr (Or.inr (Or.inr ⟨by omega, by omega, by omega⟩))

/-- A white-space rune is decoded from a white-space token at the front. -/
theorem decodeRune_space (s : Bytes) (hsp : isSpace (decodeRune s).1 = true) :
    ∃ t ∈ whiteSpaceTokens, t <+: s ∧ (decodeRune s).2 = t.length := by
  cases s with
  | nil => exact absurd hsp isSpace_runeError
  | cons s0 rest =>
    by_cases h0 : s0 < 128
    · rw [decodeRune_one s0 rest h0] at hsp ⊢
      rw [isSpace_iff] at hsp
      have hs : s0 = 9 ∨ s0 = 10 ∨ s0 = 11 ∨ s0 = 12 ∨ s0 = 13 ∨ s0 = 32 := by
        dsimp only at hsp; omega
      refine ⟨[s0], ?_, ⟨rest, rfl⟩, rfl⟩
      rcases hs with rfl | rfl | rfl | rfl | rfl | rfl <;> decide
    · rcases decodeRune_shape s0 rest h0 with hd | ⟨s1, r1, rfl, h1, h2, h3, h4, hd⟩
          | ⟨s1, s2, r2, rfl, h1, h2, h3, h4, h5, h5b, h6, h7, hd⟩
          | ⟨s1, s2, s3, r3, rfl, h1, h2, h3, h4, h5, h5b, h6, h7, h8, h9, hd⟩
      · rw [hd] at hsp; exact absurd hsp isSpace_runeError
      · rw [hd] at hsp ⊢
        rw [isSpace_iff] at hsp
        dsimp only at hsp
        have hr : s0 % 32 * 64 + s1 % 64 + 12416 = s0 * 64 + s1 := by omega
        obtain ⟨rfl, hs1⟩ := space_two s0 s1 _ h1 h2 h3 h4 hr hsp
        refine ⟨[194, s1], ?_, ⟨r1, rfl⟩, rfl⟩
        rcases hs1 with rfl | rfl <;> decide
      · rw [hd] at hsp ⊢
        rw [isSpace_iff] at hsp
        dsimp only at hsp
        have hr : s0 % 16 * 4096 + s1 % 64 * 64 + s2 % 64 + 925824 = s0 * 4096 + s1 * 64 + s2 := by
          omega
        have hs := space_three s0 s1 s2 _ h1 h2 h3 h4 h5 h6 h7 hr hsp
        refine ⟨[s0, s1, s2], ?_, ⟨r2, rfl⟩, rfl⟩
        rcases hs with ⟨rfl, rfl, rfl⟩ | ⟨rfl, rfl, hs2⟩ | ⟨rfl, rfl, rfl⟩ | ⟨rfl, rfl, rfl⟩
        · decide
        · rcases hs2 with rfl | rfl | rfl | rfl | rfl | rfl | rfl | rfl | rfl | rfl | rfl
            | rfl | rfl | rfl <;> decide
        · decide
        · decide
      · rw [hd] at hsp
        rw [isSpace_iff] at hsp
        dsimp only at hsp
        have hr : 65536 ≤ s0 % 8 * 262144 + s1 % 64 * 4096 + s2 % 64 * 64 + s3 % 64 := by omega
        generalize s0 % 8 * 262144 + s1 % 64 * 4096 + s2 % 64 * 64 + s3 % 64 = r at hsp hr
        omega

/-- The shapes of the white-space tokens. -/
theorem whiteSpaceTokens_shape (t : Bytes) (ht : t ∈ whiteSpaceTokens) :
    (∃ a, t = [a] ∧ a < 128)
    ∨ (∃ a b, t = [a, b] ∧ 194 ≤ a ∧ a < 224 ∧ 128 ≤ b ∧ b ≤ 191)
    ∨ (∃ a b c, t = [a, b, c] ∧ 225 ≤ a ∧ a < 237 ∧ 128 ≤ b ∧ b ≤ 191 ∧ 128 ≤ c ∧ c ≤ 191) := by
  simp only [whiteSpaceTokens, List.mem_cons, List.mem_singleton, List.not_mem_nil,
    or_false] at ht
  rcases ht with rfl | rfl | rfl | rfl | rfl | rfl | rfl | rfl | rfl | rfl | rfl | rfl | rfl
    | rfl | rfl | rfl | rfl | rfl | rfl | rfl | rfl | rfl | rfl | rfl | rfl
  all_goals first
    | exact Or.inl ⟨_, rfl, by omega⟩
    | exact Or.inr (Or.inl ⟨_, _, rfl, by omega, by omega, by omega, by omega⟩)
    | exact Or.inr (Or.inr ⟨_, _, _, rfl, by omega, by omega, by omega, by omega, by omega,
        by omega⟩)

theorem whiteSpaceTokens_isSpace : ∀ t ∈ whiteSpaceTokens, isSpace (decodeRune t).1 = true := by
  decide

/-- A white-space token at the front is decoded as a white-space rune of the
token's width. -/
theorem decodeRune_token (t : Bytes) (ht : t ∈ whiteSpaceTokens) (rest : Bytes) :
    isSpace (decodeRune (t ++ rest)).1 = true ∧ (decodeRune (t ++ rest)).2 = t.length := by
  have hsp := whiteSpaceTokens_isSpace t ht
  rcases whiteSpaceTokens_shape t ht with ⟨a, rfl, h⟩ | ⟨a, b, rfl, h1, h2, h3, h4⟩
      | ⟨a, b, c, rfl, h1, h2, h3, h4, h5, h6⟩
  · rw [decodeRune_one a [] h] at hsp
    rw [List.singleton_append, decodeRune_one a rest h]
    exact ⟨hsp, rfl⟩
  · rw [decodeRune_two a b [] h1 h2 h3 h4] at hsp
    have e : [a, b] ++ rest = a :: b :: rest := rfl
    rw [e, decodeRune_two a b rest h1 h2 h3 h4]
    exact ⟨hsp, rfl⟩
  · rw [decodeRune_three a b c [] (by omega) (by omega) h3 h4 (by omega) (by omega) h5 h6] at hsp
    have e : [a, b, c] ++ rest = a :: b :: c :: rest := rfl
    rw [e, decodeRune_three a b c rest (by omega) (by omega) h3 h4 (by omega) (by omega) h5 h6]
    exact ⟨hsp, rfl⟩

theorem find_token_some (p : Bytes → Bool) (t : Bytes)
    (h : whiteSpaceTokens.find? p = some t) : t ∈ whiteSpaceTokens ∧ p t = true :=
  ⟨List.mem_of_find?_eq_some h, List.find?_some h⟩

theorem token_ne_nil (t : Bytes) (ht : t ∈ whiteSpaceTokens) : 1 ≤ t.length := by
  rcases whiteSpaceTokens_shape t ht with ⟨a, rfl, _⟩ | ⟨a, b, rfl, _⟩ | ⟨a, b, c, rfl, _⟩ <;> simp

/-- The loop of `strings.TrimLeftFunc` drops the leading white-space tokens. -/
theorem trimLeftLoop_eq (fuel : Nat) (s : Bytes) (h : s.length ≤ fuel) :
    trimLeftLoop fuel s = stripLeadingLoop fuel s := by
  induction fuel generalizing s with
  | zero =>
    have hs : s = [] := List.length_eq_zero.1 (by omega)
    rw [hs]; rfl
  | succ f ih =>
    unfold trimLeftLoop stripLeadingLoop
    cases hfind : whiteSpaceTokens.find? (fun t => decide (t <+: s)) with
    | some t =>
      obtain ⟨ht, hpre⟩ := find_token_some _ t hfind
      obtain ⟨rest, rfl⟩ := of_decide_eq_true hpre
      have hlen := token_ne_nil t ht
      have hne : t ++ rest ≠ [] := by
        intro h0
        have := congrArg List.length h0
        rw [List.length_append, List.length_nil] at this
        omega
      obtain ⟨hsp, hw⟩ := decodeRune_token t ht rest
      dsimp only
      rw [if_neg hne, if_pos hsp, hw]
      apply ih
      have hl := List.length_append t rest
      rw [List.length_drop]
      omega
    | none =>
      dsimp only
      by_cases hs : s = []
      · rw [if_pos hs, hs]
      · rw [if_neg hs]
        by_cases hsp : isSpace (decodeRune s).1 = true
        · exfalso
          obtain ⟨t, ht, hpre, _⟩ := decodeRune_space s hsp
          have := List.find?_eq_none.1 hfind t ht
          simp [hpre] at this
        · rw [if_neg hsp]

theorem trimLeft_eq (s : Bytes) : trimLeft s = stripLeading s :=
  trimLeftLoop_eq s.length s (le_refl _)

theorem getD_append_end (Q t : Bytes) (k : Nat) (hk : k ≤ t.length) :
    (Q ++ t).getD ((Q ++ t).length - k) 0 = t.getD (t.length - k) 0 := by
  rw [List.getD_eq_getElem?_getD, List.getD_eq_getElem?_getD, List.length_append,
    List.getElem?_append_right (by omega)]
  congr 2
  omega

theorem decodeLastRune_one (Q : Bytes) (a : Nat) (h : a < 128) :
    decodeLastRune (Q ++ [a]) = (a, 1) := by
  have h1 := getD_append_end Q [a] 1 (by simp)
  have he : ¬ (Q ++ [a]).length = 0 := by simp
  unfold decodeLastRune
  simp only [he, if_false, h1]
  simp [h]

theorem decodeLastRune_two (Q : Bytes) (a b : Nat) (ha : runeStart a = true) (hb : 128 ≤ b)
    (hd : (decodeRune [a, b]).2 = 2) :
    decodeLastRune (Q ++ [a, b]) = decodeRune [a, b] := by
  have h1 := getD_append_end Q [a, b] 1 (by simp)
  have h2 := getD_append_end Q [a, b] 2 (by simp)
  have he : ¬ (Q ++ [a, b]).length = 0 := by simp
  have he2 : 2 ≤ (Q ++ [a, b]).length := by simp
  have hdrop : (Q ++ [a, b]).drop ((Q ++ [a, b]).length - 2) = [a, b] := by
    rw [List.length_append]
    simp
  have hb2 : ¬ b < 128 := by omega
  unfold decodeLastRune
  simp only [he, if_false, h1, h2, he2, true_and]
  simp [hb2, ha, hdrop, hd]

theorem decodeLastRune_three (Q : Bytes) (a b c : Nat) (ha : runeStart a = true)
    (hb : runeStart b = false) (hc : 128 ≤ c) (hd : (decodeRune [a, b, c]).2 = 3) :
    decodeLastRune (Q ++ [a, b, c]) = decodeRune [a, b, c] := by
  have h1 := getD_append_end Q [a, b, c] 1 (by simp)
  have h2 := getD_append_end Q [a, b, c] 2 (by simp)
  have h3 := getD_append_end Q [a, b, c] 3 (by simp)
  have he : ¬ (Q ++ [a, b, c]).length = 0 := by simp
  have he2 : 2 ≤ (Q ++ [a, b, c]).length := by simp
  have he3 : 3 ≤ (Q ++ [a, b, c]).length := by simp
  have hdrop : (Q ++ [a, b, c]).drop ((Q ++ [a, b, c]).length - 3) = [a, b, c] := by
    rw [List.length_append]
    simp
  have hc2 : ¬ c < 128 := by omega
  unfold decodeLastRune
  simp only [he, if_false, h1, h2, h3, he2, he3, true_and]
  simp [hc2, ha, hb, hdrop, hd]

theorem runeStart_eq_true (b : Nat) : runeStart b = true ↔ (b < 128 ∨ 191 < b) := by
  unfold runeStart
  simp only [Bool.not_eq_true', Bool.and_eq_false_imp, decide_eq_true_eq, decide_eq_false_iff_not]
  omega

theorem runeStart_eq_false (b : Nat) : runeStart b = false ↔ (128 ≤ b ∧ b ≤ 191) := by
  unfold runeStart
  simp

/-- A white-space token at the end is decoded as a white-space rune of the
token's width. -/
theorem decodeLastRune_token (t : Bytes) (ht : t ∈ whiteSpaceTokens) (Q : Bytes) :
    isSpace (decodeLastRune (Q ++ t)).1 = true ∧ (decodeLastRune (Q ++ t)).2 = t.length := by
  have hsp := whiteSpaceTokens_isSpace t ht
  rcases whiteSpaceTokens_shape t ht with ⟨a, rfl, h⟩ | ⟨a, b, rfl, h1, h2, h3, h4⟩
      | ⟨a, b, c, rfl, h1, h2, h3, h4, h5, h6⟩
  · rw [decodeRune_one a [] h] at hsp
    rw [decodeLastRune_one Q a h]
    exact ⟨hsp, rfl⟩
  · have hd := decodeRune_two a b [] h1 h2 h3 h4
    rw [decodeLastRune_two Q a b ((runeStart_eq_true a).2 (by omega)) h3 (by rw [hd])]
    rw [hd] at hsp ⊢
    exact ⟨hsp, rfl⟩
  · have hd := decodeRune_three a b c [] (by omega) (by omega) h3 h4 (by omega) (by omega) h5 h6
    rw [decodeLastRune_three Q a b c ((runeStart_eq_true a).2 (by omega))
      ((runeStart_eq_false b).2 ⟨h3, h4⟩) h5 (by rw [hd])]
    rw [hd] at hsp ⊢
    exact ⟨hsp, rfl⟩

theorem getD_last (P : Bytes) (hP : P ≠ []) :
    P = P.take (P.length - 1) ++ [P.getD (P.length - 1) 0] := by
  have hlen : 0 < P.length := List.length_pos.2 hP
  have hd : P.drop (P.length - 1) = [P.getD (P.length - 1) 0] := by
    rw [List.drop_eq_getElem_cons (by omega), List.getD_eq_getElem?_getD,
      List.getElem?_eq_getElem (by omega), List.drop_of_length_le (by omega)]
    rfl
  rw [← hd, List.take_append_drop]

/-- A white-space rune at the end is decoded from a white-space token at the
end. -/
theorem decodeLastRune_space (P : Bytes) (hsp : isSpace (decodeLastRune P).1 = true) :
    ∃ t ∈ whiteSpaceTokens, t <:+ P ∧ (decodeLastRune P).2 = t.length := by
  unfold decodeLastRune at hsp ⊢
  dsimp only at hsp ⊢
  by_cases he : P.length = 0
  · rw [if_pos he] at hsp
    exact absurd hsp isSpace_runeError
  rw [if_neg he] at hsp ⊢
  have hP : P ≠ [] := fun h => he (by rw [h]; rfl)
  by_cases hlast : P.getD (P.length - 1) 0 < 128
  · rw [if_pos hlast] at hsp ⊢
    have hs := decodeRune_space [P.getD (P.length - 1) 0]
      (by rw [decodeRune_one _ [] hlast]; exact hsp)
    obtain ⟨t, ht, hpre, hw⟩ := hs
    rw [decodeRune_one _ [] hlast] at hw
    have hlen := token_ne_nil t ht
    have ht1 : t = [P.getD (P.length - 1) 0] :=
      hpre.eq_of_length (by simp only [List.length_singleton]; dsimp only at hw; omega)
    refine ⟨t, ht, ?_, hw⟩
    rw [ht1]
    exact ⟨_, (getD_last P hP).symm⟩
  · rw [if_neg hlast] at hsp ⊢
    generalize (if 2 ≤ P.length ∧ runeStart (P.getD (P.length - 2) 0) = true then P.length - 2
      else if 3 ≤ P.length ∧ runeStart (P.getD (P.length - 3) 0) = true then P.length - 3
      else if 4 ≤ P.length ∧ runeStart (P.getD (P.length - 4) 0) = true then P.length - 4
      else P.length - 5) = start at hsp ⊢
    by_cases hw : start + (decodeRune (P.drop start)).2 ≠ P.length
    · rw [if_pos hw] at hsp
      exact absurd hsp isSpace_runeError
    · rw [if_neg hw] at hsp ⊢
      obtain ⟨t, ht, hpre, hwt⟩ := decodeRune_space (P.drop start) hsp
      have htd : t = P.drop start :=
        hpre.eq_of_length (by rw [List.length_drop]; omega)
      exact ⟨t, ht, by rw [htd]; exact List.drop_suffix _ _, hwt⟩

/-- Text that follows a whole rune does not change how the rune is decoded,
as long as it does not begin with a continuation byte. -/
theorem decodeRune_append (Y R : Bytes) (hY : Y ≠ []) (hw : (decodeRune Y).2 = Y.length)
    (hR : ∀ b ∈ R.head?, b < 128 ∨ 191 < b) : decodeRune (Y ++ R) = decodeRune Y := by
  cases Y with
  | nil => exact absurd rfl hY
  | cons y0 rest =>
    by_cases h0 : y0 < 128
    · rw [decodeRune_one y0 rest h0, List.cons_append, decodeRune_one y0 _ h0]
    · rcases decodeRune_shape y0 rest h0 with hd | ⟨s1, r1, rfl, h1, h2, h3, h4, hd⟩
          | ⟨s1, s2, r2, rfl, h1, h2, h3, h4, h5, h5b, h6, h7, hd⟩
          | ⟨s1, s2, s3, r3, rfl, h1, h2, h3, h4, h5, h5b, h6, h7, h8, h9, hd⟩
      · rw [hd] at hw ⊢
        have hrest : rest = [] :=
          List.length_eq_zero.1 (by simp only [List.length_cons] at hw; omega)
        rw [hrest, List.singleton_append]
        exact decodeRune_alone y0 R (by omega) hR
      · rw [hd] at hw ⊢
        exact decodeRune_two y0 s1 _ h1 h2 h3 h4
      · rw [hd] at hw ⊢
        exact decodeRune_three y0 s1 s2 _ h1 h2 h3 h4 h5 h5b h6 h7
      · rw [hd] at hw ⊢
        exact decodeRune_four y0 s1 s2 s3 _ h1 h2 h3 h4 h5 h5b h6 h7 h8 h9

/-- The last step of `strings.TrimRightFunc`: from the start of the last rune
of `P` the code steps forward again by the width of that rune, also when text
`R` follows `P` that does not begin with a continuation byte. -/
theorem trimRight_end (P R : Bytes) (hP : P ≠ [])
    (hR : ∀ b ∈ R.head?, b < 128 ∨ 191 < b) :
    (if (P ++ R).getD (P.length - (decodeLastRune P).2) 0 ≥ 128 then
        (P ++ R).take (P.length - (decodeLastRune P).2
          + (decodeRune ((P ++ R).drop (P.length - (decodeLastRune P).2))).2)
      else (P ++ R).take (P.length - (decodeLastRune P).2 + 1)) = P := by
  have hlen : 0 < P.length := List.length_pos.2 hP
  have he : ¬ P.length = 0 := by omega
  have htake : (P ++ R).take P.length = P := by simp
  have hlast : (P ++ R).getD (P.length - 1) 0 = P.getD (P.length - 1) 0 := by
    rw [List.getD_eq_getElem?_getD, List.getD_eq_getElem?_getD,
      List.getElem?_append_left (by omega)]
  have hdropLast : (P ++ R).drop (P.length - 1) = P.getD (P.length - 1) 0 :: R := by
    conv_lhs => rw [getD_last P hP]
    rw [List.append_assoc, List.drop_append_of_le_length (by simp),
      List.drop_of_length_le (by simp)]
    rfl
  unfold decodeLastRune
  dsimp only
  rw [if_neg he]
  by_cases h128 : P.getD (P.length - 1) 0 < 128
  · rw [if_pos h128]
    dsimp only
    rw [hlast, if_neg (by omega), Nat.sub_add_cancel (by omega), htake]
  · rw [if_neg h128]
    have hstart : (if 2 ≤ P.length ∧ runeStart (P.getD (P.length - 2) 0) = true then P.length - 2
      else if 3 ≤ P.length ∧ runeStart (P.getD (P.length - 3) 0) = true then P.length - 3
      else if 4 ≤ P.length ∧ runeStart (P.getD (P.length - 4) 0) = true then P.length - 4
      else P.length - 5) < P.length := by
      split_ifs <;> omega
    generalize (if 2 ≤ P.length ∧ runeStart (P.getD (P.length - 2) 0) = true then P.length - 2
      else if 3 ≤ P.length ∧ runeStart (P.getD (P.length - 3) 0) = true then P.length - 3
      else if 4 ≤ P.length ∧ runeStart (P.getD (P.length - 4) 0) = true then P.length - 4
      else P.length - 5) = start at hstart ⊢
    by_cases hw : start + (decodeRune (P.drop start)).2 ≠ P.length
    · rw [if_pos hw]
      dsimp only
      rw [hlast, if_pos (by omega), hdropLast,
        decodeRune_alone _ R (by omega) hR, Nat.sub_add_cancel (by omega), htake]
    · rw [if_neg hw]
      have hw2 : start + (decodeRune (P.drop start)).2 = P.length := by omega
      have hj : P.length - (decodeRune (P.drop start)).2 = start := by omega
      have hY : P.drop start ≠ [] := by
        intro h
        have := congrArg List.length h
        rw [List.length_drop, List.length_nil] at this
        omega
      have hdrop : (P ++ R).drop start = P.drop start ++ R :=
        List.drop_append_of_le_length (by omega)
      have hYlen : (decodeRune (P.drop start)).2 = (P.drop start).length := by
        rw [List.length_drop]; omega
      rw [hj, hdrop, decodeRune_append _ R hY hYlen hR, hw2, htake]
      by_cases hy : (P ++ R).getD start 0 ≥ 128
      · rw [if_pos hy]
      · rw [if_neg hy]
        have hhead : P.drop start = P.getD start 0 :: P.drop (start + 1) := by
          rw [List.drop_eq_getElem_cons hstart, List.getD_eq_getElem?_getD,
            List.getElem?_eq_getElem hstart]
          rfl
        have hy2 : P.getD start 0 < 128 := by
          rw [List.getD_eq_getElem?_getD, List.getElem?_append_left hstart] at hy
          rw [List.getD_eq_getElem?_getD]
          omega
        rw [hhead, decodeRune_one _ _ hy2] at hw2
        dsimp only at hw2
        rw [hw2, htake]

theorem token_head (t : Bytes) (ht : t ∈ whiteSpaceTokens) (rest : Bytes) :
    ∀ b ∈ (t ++ rest).head?, b < 128 ∨ 191 < b := by
  intro b hb
  rcases whiteSpaceTokens_shape t ht with ⟨a, rfl, h⟩ | ⟨a, c, rfl, h1, h2, h3, h4⟩
      | ⟨a, c, d, rfl, h1, h2, h3, h4, h5, h6⟩ <;>
    · simp at hb
      omega

theorem not_token_suffix_nil (t : Bytes) (ht : t ∈ whiteSpaceTokens) : ¬ t <:+ ([] : Bytes) := by
  intro h
  have := token_ne_nil t ht
  rw [List.suffix_nil.1 h] at this
  simp at this

/-- The loop of `strings.TrimRightFunc` and its last step drop the trailing
white-space tokens. -/
theorem lastIndexLoop_eq (s : Bytes) (fuel i : Nat) (hi : i ≤ s.length) (hf : i ≤ fuel)
    (hR : ∀ b ∈ (s.drop i).head?, b < 128 ∨ 191 < b) :
    (match lastIndexLoop s fuel i with
      | some j =>
        if s.getD j 0 ≥ 128 then s.take (j + (decodeRune (s.drop j)).2) else s.take (j + 1)
      | none => s.take 0) = stripTrailingLoop fuel (s.take i) := by
  induction fuel generalizing i with
  | zero =>
    have hi0 : i = 0 := by omega
    rw [hi0]
    rfl
  | succ f ih =>
    unfold lastIndexLoop stripTrailingLoop
    by_cases hi0 : i = 0
    · rw [if_pos hi0, hi0]
      have hnone : whiteSpaceTokens.find? (fun t => decide (t <:+ s.take 0)) = none := by
        rw [List.find?_eq_none]
        intro t ht
        simpa using not_token_suffix_nil t ht
      rw [hnone]
    · rw [if_neg hi0]
      have hPlen : (s.take i).length = i := by rw [List.length_take]; omega
      have hP : s.take i ≠ [] := by
        intro h
        rw [h] at hPlen
        exact hi0 hPlen.symm
      cases hfind : whiteSpaceTokens.find? (fun t => decide (t <:+ s.take i)) with
      | some t =>
        obtain ⟨ht, hsuf⟩ := find_token_some _ t hfind
        obtain ⟨Q, hQ⟩ := of_decide_eq_true hsuf
        obtain ⟨hsp, hw⟩ := decodeLastRune_token t ht Q
        rw [hQ] at hsp hw
        have hlen := token_ne_nil t ht
        have hQlen : Q.length + t.length = i := by
          rw [← hPlen, ← hQ, List.length_append]
        dsimp only
        rw [hsp, hw, if_neg (show ¬ (!true) = true by decide)]
        have htake : (s.take i).take ((s.take i).length - t.length) = s.take (i - t.length) := by
          rw [hPlen, List.take_take]
          congr 1
          omega
        rw [htake]
        apply ih (i - t.length) (by omega) (by omega)
        have hs : s = Q ++ (t ++ s.drop i) := by
          rw [← List.append_assoc, hQ, List.take_append_drop]
        have hdrop : s.drop (i - t.length) = t ++ s.drop i := by
          conv_lhs => rw [hs]
          rw [List.drop_append_of_le_length (by omega), List.drop_of_length_le (by omega)]
          rfl
        rw [hdrop]
        exact token_head t ht _
      | none =>
        have hnsp : isSpace (decodeLastRune (s.take i)).1 = false := by
          by_contra hsp
          rw [Bool.not_eq_false] at hsp
          obtain ⟨t, ht, hsuf, _⟩ := decodeLastRune_space _ hsp
          have := List.find?_eq_none.1 hfind t ht
          simp [hsuf] at this
        dsimp only
        rw [hnsp, if_pos (show (!false) = true from rfl)]
        dsimp only
        have := trimRight_end (s.take i) (s.drop i) hP hR
        rw [List.take_append_drop, hPlen] at this
        exact this

theorem trimRight_eq (s : Bytes) : trimRight s = stripTrailing s := by
  have h := lastIndexLoop_eq s s.length s.length (le_refl _) (le_refl _) (by simp)
  rw [List.take_length] at h
  exact h

/-- The model of `strings.TrimSpace` removes exactly the white-space
characters around the text. -/
theorem trimSpace_eq_trimmedText (s : Bytes) : trimSpace s = trimmedText s := by
  unfold trimSpace trimmedText
  rw [trimRight_eq, trimLeft_eq]

/-! ## Token codec: the checked properties -/

/-- C1. A token issued at `T` under secret `S` and validated under the same
secret at time `T + k` is accepted exactly when `2 ≤ k ≤ 900`: it is rejected
for `k < 2` (negative `k` included) and for `k > 900`. -/
theorem validateToken_window (H : Bytes → Bytes) (S : Bytes) (T k : Int)
    (hT : IsInt64 T) (hnow : IsInt64 (T + k)) :
    validateToken H S (generateToken H S T) (T + k) = decide (2 ≤ k ∧ k ≤ 900) := by
  have h := validateToken_generateToken H S T (T + k) hT hnow
  have hk : T + k - T = k := by ring
  rw [hk] at h
  exact h

theorem validateToken_window_witness :
    IsInt64 1700000000 ∧ IsInt64 (1700000000 + 2) ∧
    validateToken (fun x => x.take 4) (ascii "0123456789abcdef")
      (generateToken (fun x => x.take 4) (ascii "0123456789abcdef") 1700000000)
      (1700000000 + 2) = decide ((2 : Int) ≤ 2 ∧ (2 : Int) ≤ 900) :=
  ⟨by decide, by decide,
    validateToken_window (fun x => x.take 4) (ascii "0123456789abcdef")
      1700000000 2 (by decide) (by decide)⟩

/-- C4. `validateToken` fails closed. It is a total function, and it returns
false on a token without a `:`, on a token whose text before the first `:` is
not a base-10 signed 64-bit integer, and on the (empty) token read from a form
without a `_ts_token` field. -/
theorem validateToken_fails_closed (H : Bytes → Bytes) (S token : Bytes) (now : Int)
    (form : List (Bytes × Bytes))
    (h : 58 ∉ token ∨ isDecimalInt64 (timestampPart token) = false
      ∨ (token = lookup form (ascii "_ts_token") ∧ ∀ p ∈ form, p.1 ≠ ascii "_ts_token")) :
    validateToken H S token now = false := by
  have hnocolon : ∀ t : Bytes, 58 ∉ t → validateToken H S t now = false := by
    intro t ht
    unfold validateToken
    rw [splitN_two_of_not_mem t ht]
  rcases h with h | h | ⟨h1, h2⟩
  · exact hnocolon token h
  · cases hc : cut 58 token with
    | none => exact hnocolon token ((cut_eq_none 58 token).1 hc)
    | some p =>
      obtain ⟨a, b⟩ := p
      obtain ⟨hab, ha⟩ := cut_eq_some 58 token a b hc
      rw [hab, takeWhile_before_colon a b ha] at h
      rw [hab]
      unfold validateToken
      rw [splitN_two_append a b ha]
      simp only [parseInt_eq_none_of_not_decimal a h]
  · rw [h1, lookup_absent form _ h2]
    exact hnocolon [] (by simp)

theorem validateToken_fails_closed_witness :
    (isDecimalInt64 (timestampPart (ascii "9223372036854775808:AAAA")) = false) ∧
    validateToken (fun x => x.take 4) (ascii "0123456789abcdef")
      (ascii "9223372036854775808:AAAA") 9223372036854775807 = false :=
  ⟨by decide,
    validateToken_fails_closed (fun x => x.take 4) (ascii "0123456789abcdef")
      (ascii "9223372036854775808:AAAA") 9223372036854775807 [] (Or.inr (Or.inl (by decide)))⟩

/-! ## Contact handler and origin guard -/

theorem originLoop_eq_true (origin : Bytes) (entries : List Bytes) :
    originLoop origin entries = true ↔ ∃ entry ∈ entries, trimSpace entry = origin := by
  induction entries with
  | nil => simp [originLoop]
  | cons e rest ih =>
    unfold originLoop
    by_cases h : trimSpace e = origin
    · simp [h]
    · simp [h, ih]

/-- The honeypot branch of `contactHandler`: status 200 and one log line. -/
theorem honeypot_branch_eq (H : Bytes → Bytes) (S : Bytes) (w : World) (r : Request)
    (hcors : (checkAndSetCORSHeaders w.env r).1 = true)
    (hpost : r.method = ascii "POST")
    (htok : validateToken H S (lookup r.form (ascii "_ts_token")) w.now = true)
    (hpot : lookup r.form (ascii "_gotcha") ≠ [] ∨ lookup r.form (ascii "nickname") ≠ []) :
    contactHandler H S w r =
      ({ status := 200, header := (checkAndSetCORSHeaders w.env r).2, body := [] },
        [Effect.log (ascii "INFO")
          (ascii "Honeypot field triggered " ++ [226, 128, 148] ++ ascii " likely a bot")]) := by
  have hopt : ascii "POST" ≠ ascii "OPTIONS" := by decide
  unfold contactHandler
  simp only [hcors, hpost, htok, hpot, hopt, if_true, if_false, ne_eq, not_true_eq_false,
    Bool.true_eq_false]

/-- The branches of `contactHandler` behind the honeypot check. -/
theorem contactHandler_fields_eq (H : Bytes → Bytes) (S : Bytes) (w : World) (r : Request)
    (hcors : (checkAndSetCORSHeaders w.env r).1 = true)
    (hpost : r.method = ascii "POST")
    (htok : validateToken H S (lookup r.form (ascii "_ts_token")) w.now = true)
    (hpot : lookup r.form (ascii "_gotcha") = [] ∧ lookup r.form (ascii "nickname") = []) :
    contactHandler H S w r =
      if lookup r.form (ascii "name") = [] ∨ lookup r.form (ascii "email") = []
          ∨ lookup r.form (ascii "message") = [] then
        (httpError (checkAndSetCORSHeaders w.env r).2 (ascii "Missing required fields") 400,
          [Effect.log (ascii "INFO") (ascii "Form submission received"),
           Effect.log (ascii "WARN") (ascii "Missing required fields")])
      else
        match (sendEmail w (lookup r.form (ascii "name")) (lookup r.form (ascii "email"))
            (lookup r.form (ascii "message")) (lookup r.form (ascii "subject"))).1 with
        | some _ =>
          (httpError (checkAndSetCORSHeaders w.env r).2 (ascii "Failed to send message") 500,
            Effect.log (ascii "INFO") (ascii "Form submission received")
              :: Effect.sendEmail (lookup r.form (ascii "name")) (lookup r.form (ascii "email"))
                  (lookup r.form (ascii "message")) (lookup r.form (ascii "subject"))
              :: (sendEmail w (lookup r.form (ascii "name")) (lookup r.form (ascii "email"))
                  (lookup r.form (ascii "message")) (lookup r.form (ascii "subject"))).2
              ++ [Effect.log (ascii "ERROR") (ascii "Failed to send email")])
        | none =>
          if lookup r.form (ascii "_next") ≠ [] then
            ({ status := 303,
               header := (checkAndSetCORSHeaders w.env r).2
                 ++ [(ascii "Location", lookup r.form (ascii "_next"))],
               body := [] },
              Effect.log (ascii "INFO") (ascii "Form submission received")
                :: Effect.sendEmail (lookup r.form (ascii "name")) (lookup r.form (ascii "email"))
                    (lookup r.form (ascii "message")) (lookup r.form (ascii "subject"))
                :: (sendEmail w (lookup r.form (ascii "name")) (lookup r.form (ascii "email"))
                    (lookup r.form (ascii "message")) (lookup r.form (ascii "subject"))).2
                ++ [Effect.log (ascii "INFO") (ascii "Email sent successfully")])
          else
            ({ status := 200, header := (checkAndSetCORSHeaders w.env r).2,
               body := ascii "Thanks! Your message was sent." },
              Effect.log (ascii "INFO") (ascii "Form submission received")
                :: Effect.sendEmail (lookup r.form (ascii "name")) (lookup r.form (ascii "email"))
                    (lookup r.form (ascii "message")) (lookup r.form (ascii "subject"))
                :: (sendEmail w (lookup r.form (ascii "name")) (lookup r.form (ascii "email"))
                    (lookup r.form (ascii "message")) (lookup r.form (ascii "subject"))).2
                ++ [Effect.log (ascii "INFO") (ascii "Email sent successfully")]) := by
  have hopt : ascii "POST" ≠ ascii "OPTIONS" := by decide
  unfold contactHandler
  simp only [hcors, hpost, htok, hpot.1, hpot.2, hopt, if_true, if_false, ne_eq,
    not_true_eq_false, Bool.true_eq_false, or_self]

/-- The function `sendEmail` transmits at most once, and nothing but its transmission. -/
theorem sendEmail_effects (w : World) (name email message subject : Bytes) :
    ((sendEmail w name email message subject).2.filter Effect.isSendEmail) = [] ∧
    ((sendEmail w name email message subject).2.filter Effect.isLogSpam) = [] ∧
    ((sendEmail w name email message subject).2.filter Effect.isSmtpSend).length
      = if smtpConfigured w.env then 1 else 0 := by
  by_cases hc : smtpConfigured w.env
  · have hno : ¬ (lookup w.env (ascii "SMTP_HOST") = [] ∨ lookup w.env (ascii "SMTP_PORT") = []
        ∨ lookup w.env (ascii "SMTP_USERNAME") = [] ∨ lookup w.env (ascii "SMTP_PASSWORD") = []
        ∨ lookup w.env (ascii "SENDER_EMAIL") = [] ∨ lookup w.env (ascii "RECIPIENT_EMAIL") = []) := by
      unfold smtpConfigured at hc; tauto
    unfold sendEmail
    dsimp only
    rw [if_neg hno, if_pos hc]
    simp [Effect.isSendEmail, Effect.isLogSpam, Effect.isSmtpSend]
  · have hyes : lookup w.env (ascii "SMTP_HOST") = [] ∨ lookup w.env (ascii "SMTP_PORT") = []
        ∨ lookup w.env (ascii "SMTP_USERNAME") = [] ∨ lookup w.env (ascii "SMTP_PASSWORD") = []
        ∨ lookup w.env (ascii "SENDER_EMAIL") = [] ∨ lookup w.env (ascii "RECIPIENT_EMAIL") = [] := by
      unfold smtpConfigured at hc; tauto
    unfold sendEmail
    dsimp only
    rw [if_pos hyes, if_neg hc]
    simp

/-- C5, as stated, fails: on a POST with a fresh token and a filled-in
honeypot field the handler of `deploy/main.go` answers 200 and hands no record
to the spam record store, where the claim expects exactly one. -/
theorem honeypot_writes_no_spam_record :
    ∃ (S : Bytes) (w : World) (r : (Bytes → Bytes) → Request), ∀ H : Bytes → Bytes,
      (checkAndSetCORSHeaders w.env (r H)).1 = true ∧ (r H).method = ascii "POST" ∧
      validateToken H S (lookup (r H).form (ascii "_ts_token")) w.now = true ∧
      lookup (r H).form (ascii "_gotcha") ≠ [] ∧
      (contactHandler H S w (r H)).1.status = 200 ∧
      ((contactHandler H S w (r H)).2.filter Effect.isLogSpam).length = 0 := by
  refine ⟨sampleSecret, sampleWorld, honeypotRequest, fun H => ?_⟩
  have hcors : (checkAndSetCORSHeaders sampleWorld.env (honeypotRequest H)).1 = true := rfl
  have hpost : (honeypotRequest H).method = ascii "POST" := rfl
  have hlook : lookup (honeypotRequest H).form (ascii "_ts_token")
      = generateToken H sampleSecret 1700000000 := rfl
  have htok : validateToken H sampleSecret
      (lookup (honeypotRequest H).form (ascii "_ts_token")) sampleWorld.now = true := by
    rw [hlook]
    show validateToken H sampleSecret (generateToken H sampleSecret 1700000000) 1700000005 = true
    rw [validateToken_generateToken H _ 1700000000 1700000005 (by decide) (by decide)]
    decide
  have hpot : lookup (honeypotRequest H).form (ascii "_gotcha") ≠ [] := by
    have : lookup (honeypotRequest H).form (ascii "_gotcha") = ascii "x" := rfl
    rw [this]; decide
  refine ⟨hcors, hpost, htok, hpot, ?_, ?_⟩
  · rw [honeypot_branch_eq H _ _ _ hcors hpost htok (Or.inl hpot)]
  · rw [honeypot_branch_eq H _ _ _ hcors hpost htok (Or.inl hpot)]
    rfl

/-- C5, amended. For a POST from an allowed origin with a valid token and a
non-empty honeypot field, `contactHandler` answers 200, does not call
`sendEmail`, transmits no mail, and hands no record to the spam record store:
its only effect is one log line. -/
theorem contactHandler_honeypot (H : Bytes → Bytes) (S : Bytes) (w : World) (r : Request)
    (hcors : (checkAndSetCORSHeaders w.env r).1 = true)
    (hpost : r.method = ascii "POST")
    (htok : validateToken H S (lookup r.form (ascii "_ts_token")) w.now = true)
    (hpot : lookup r.form (ascii "_gotcha") ≠ [] ∨ lookup r.form (ascii "nickname") ≠ []) :
    (contactHandler H S w r).1.status = 200 ∧
    (contactHandler H S w r).2.filter Effect.isSendEmail = [] ∧
    (contactHandler H S w r).2.filter Effect.isSmtpSend = [] ∧
    (contactHandler H S w r).2.filter Effect.isLogSpam = [] ∧
    (contactHandler H S w r).2 = [Effect.log (ascii "INFO")
      (ascii "Honeypot field triggered " ++ [226, 128, 148] ++ ascii " likely a bot")] := by
  rw [honeypot_branch_eq H S w r hcors hpost htok hpot]
  exact ⟨rfl, rfl, rfl, rfl, rfl⟩

theorem contactHandler_honeypot_witness :
    (checkAndSetCORSHeaders sampleWorld.env (honeypotRequest (fun x => x.take 4))).1 = true ∧
    (contactHandler (fun x => x.take 4) sampleSecret sampleWorld
      (honeypotRequest (fun x => x.take 4))).1.status = 200 :=
  ⟨by decide,
    (contactHandler_honeypot (fun x => x.take 4) sampleSecret sampleWorld
      (honeypotRequest (fun x => x.take 4)) (by decide) (by decide) (by decide)
      (Or.inl (by decide))).1⟩

/-- C6, as stated, fails: a name of three spaces is empty after trimming, yet
the handler does not answer 400; it calls `sendEmail`, the mail is transmitted
and the answer is 200. -/
theorem blank_name_is_accepted :
    ∃ (S : Bytes) (w : World) (r : (Bytes → Bytes) → Request), ∀ H : Bytes → Bytes,
      (checkAndSetCORSHeaders w.env (r H)).1 = true ∧ (r H).method = ascii "POST" ∧
      validateToken H S (lookup (r H).form (ascii "_ts_token")) w.now = true ∧
      lookup (r H).form (ascii "_gotcha") = [] ∧ lookup (r H).form (ascii "nickname") = [] ∧
      trimSpace (lookup (r H).form (ascii "name")) = [] ∧
      (contactHandler H S w (r H)).1.status = 200 ∧
      ((contactHandler H S w (r H)).2.filter Effect.isSendEmail).length = 1 ∧
      ((contactHandler H S w (r H)).2.filter Effect.isSmtpSend).length = 1 := by
  refine ⟨sampleSecret, sampleWorld, blankNameRequest, fun H => ?_⟩
  have hguard : checkAndSetCORSHeaders sampleWorld.env (blankNameRequest H) = (true, []) := rfl
  have hcors : (checkAndSetCORSHeaders sampleWorld.env (blankNameRequest H)).1 = true := rfl
  have hpost : (blankNameRequest H).method = ascii "POST" := rfl
  have hlook : lookup (blankNameRequest H).form (ascii "_ts_token")
      = generateToken H sampleSecret 1700000000 := rfl
  have htok : validateToken H sampleSecret
      (lookup (blankNameRequest H).form (ascii "_ts_token")) sampleWorld.now = true := by
    rw [hlook]
    show validateToken H sampleSecret (generateToken H sampleSecret 1700000000) 1700000005 = true
    rw [validateToken_generateToken H _ 1700000000 1700000005 (by decide) (by decide)]
    decide
  have hg : lookup (blankNameRequest H).form (ascii "_gotcha") = [] := rfl
  have hn : lookup (blankNameRequest H).form (ascii "nickname") = [] := rfl
  have hname : lookup (blankNameRequest H).form (ascii "name") = ascii "   " := rfl
  have hemail : lookup (blankNameRequest H).form (ascii "email") = ascii "a@example.com" := rfl
  have hmsg : lookup (blankNameRequest H).form (ascii "message") = ascii "hello" := rfl
  have hsubj : lookup (blankNameRequest H).form (ascii "subject") = [] := rfl
  have hnext : lookup (blankNameRequest H).form (ascii "_next") = [] := rfl
  have hrun := contactHandler_fields_eq H sampleSecret sampleWorld (blankNameRequest H)
    hcors hpost htok ⟨hg, hn⟩
  rw [hname, hemail, hmsg, hsubj, hnext, hguard] at hrun
  refine ⟨hcors, hpost, htok, hg, hn, by rw [hname]; decide, ?_, ?_, ?_⟩
  · rw [hrun]; decide
  · rw [hrun]; decide
  · rw [hrun]; decide

/-- C6, amended. For a POST from an allowed origin with a valid token and
empty honeypot fields: if `name`, `email` or `message` is the empty string
(the values are compared as submitted, nothing is trimmed) the answer is 400
and `sendEmail` is not called; if all three are non-empty `sendEmail` is
called exactly once, with the submitted values, and it transmits exactly one
mail when the six SMTP settings are present and none otherwise. -/
theorem contactHandler_required_fields (H : Bytes → Bytes) (S : Bytes) (w : World) (r : Request)
    (hcors : (checkAndSetCORSHeaders w.env r).1 = true)
    (hpost : r.method = ascii "POST")
    (htok : validateToken H S (lookup r.form (ascii "_ts_token")) w.now = true)
    (hpot : lookup r.form (ascii "_gotcha") = [] ∧ lookup r.form (ascii "nickname") = []) :
    ((lookup r.form (ascii "name") = [] ∨ lookup r.form (ascii "email") = []
        ∨ lookup r.form (ascii "message") = []) →
      (contactHandler H S w r).1.status = 400 ∧
      (contactHandler H S w r).2.filter Effect.isSendEmail = [] ∧
      (contactHandler H S w r).2.filter Effect.isSmtpSend = []) ∧
    (¬ (lookup r.form (ascii "name") = [] ∨ lookup r.form (ascii "email") = []
        ∨ lookup r.form (ascii "message") = []) →
      (contactHandler H S w r).2.filter Effect.isSendEmail =
        [Effect.sendEmail (lookup r.form (ascii "name")) (lookup r.form (ascii "email"))
          (lookup r.form (ascii "message")) (lookup r.form (ascii "subject"))] ∧
      ((contactHandler H S w r).2.filter Effect.isSmtpSend).length
        = if smtpConfigured w.env then 1 else 0) := by
  have hrun := contactHandler_fields_eq H S w r hcors hpost htok hpot
  obtain ⟨hs1, _, hs3⟩ := sendEmail_effects w (lookup r.form (ascii "name"))
    (lookup r.form (ascii "email")) (lookup r.form (ascii "message"))
    (lookup r.form (ascii "subject"))
  constructor
  · intro hempty
    rw [hrun, if_pos hempty]
    exact ⟨rfl, rfl, rfl⟩
  · intro hfull
    rw [hrun, if_neg hfull]
    split
    · simp [List.filter_cons, List.filter_append, Effect.isSendEmail, Effect.isSmtpSend, hs1]
      exact hs3
    · split <;>
        (simp [List.filter_cons, List.filter_append, Effect.isSendEmail, Effect.isSmtpSend, hs1]
         exact hs3)

theorem contactHandler_required_fields_witness :
    (checkAndSetCORSHeaders sampleWorld.env (blankNameRequest (fun x => x.take 4))).1 = true ∧
    ((contactHandler (fun x => x.take 4) sampleSecret sampleWorld
        (blankNameRequest (fun x => x.take 4))).2.filter Effect.isSmtpSend).length
      = if smtpConfigured sampleWorld.env then 1 else 0 :=
  ⟨by decide,
    ((contactHandler_required_fields (fun x => x.take 4) sampleSecret sampleWorld
      (blankNameRequest (fun x => x.take 4)) (by decide) (by decide) (by decide)
      ⟨by decide, by decide⟩).2 (by decide)).2⟩

/-- C7, as stated, fails: a request that declares the origin `*`, sent to an
instance whose `CORS_ALLOW_ORIGINS` is unset, is allowed and gets the header
`Access-Control-Allow-Origin: *`, where the claim says the header is never
`*`. -/
theorem star_origin_is_echoed :
    (checkAndSetCORSHeaders [] starOriginRequest).1 = true ∧
    (ascii "Access-Control-Allow-Origin", ascii "*")
      ∈ (checkAndSetCORSHeaders [] starOriginRequest).2 := by
  decide

/-- C7, amended. `checkAndSetCORSHeaders` equals the reference origin guard for
every request and every value of `CORS_ALLOW_ORIGINS` (empty when unset), and
every `Access-Control-Allow-Origin` header it sets carries the declared origin
itself: the configured wildcard is never copied into the header, which reads
`*` only when the request itself declares the origin `*`. -/
theorem checkAndSetCORSHeaders_eq_reference (env : List (Bytes × Bytes)) (r : Request) :
    checkAndSetCORSHeaders env r
      = originGuardReference (lookup r.header (ascii "Origin"))
          (lookup env (ascii "CORS_ALLOW_ORIGINS")) ∧
    ∀ value, (ascii "Access-Control-Allow-Origin", value) ∈ (checkAndSetCORSHeaders env r).2 →
      value = lookup r.header (ascii "Origin") ∧
        (value = ascii "*" ↔ lookup r.header (ascii "Origin") = ascii "*") := by
  have href : checkAndSetCORSHeaders env r
      = originGuardReference (lookup r.header (ascii "Origin"))
          (lookup env (ascii "CORS_ALLOW_ORIGINS")) := by
    unfold checkAndSetCORSHeaders originGuardReference corsHeaders
    generalize lookup r.header (ascii "Origin") = origin
    generalize lookup env (ascii "CORS_ALLOW_ORIGINS") = allowList
    by_cases ho : origin = []
    · simp [ho]
    · by_cases h1 : allowList = []
      · simp [ho, h1]
      · by_cases h2 : allowList = ascii "*"
        · simp [ho, h2]
        · have hiff : originLoop origin (split 44 allowList) = true
              ↔ ∃ entry ∈ commaSeparated allowList, trimmedText entry = origin := by
            rw [originLoop_eq_true, split_eq_splitOn]
            simp only [trimSpace_eq_trimmedText, commaSeparated]
          by_cases h3 : originLoop origin (split 44 allowList) = true
          · have h4 := hiff.1 h3
            simp [ho, h1, h2, h3, h4]
          · have h4 : ¬ ∃ entry ∈ commaSeparated allowList, trimmedText entry = origin :=
              fun h => h3 (hiff.2 h)
            simp only [Bool.not_eq_true] at h3
            simp [ho, h1, h2, h3, h4]
  refine ⟨href, ?_⟩
  intro value hmem
  have hval : value = lookup r.header (ascii "Origin") := by
    rw [href] at hmem
    unfold originGuardReference corsHeaders at hmem
    split_ifs at hmem
    · simp at hmem
    · simp only [List.mem_cons, Prod.mk.injEq, List.mem_singleton, List.not_mem_nil,
        or_false] at hmem
      rcases hmem with h | h | h | h
      · exact h.2
      · exact absurd h.1 (by decide)
      · exact absurd h.1 (by decide)
      · exact absurd h.1 (by decide)
    · simp at hmem
  exact ⟨hval, by rw [hval]⟩

theorem checkAndSetCORSHeaders_eq_reference_witness :
    checkAndSetCORSHeaders twoOriginsEnv listedOriginRequest
      = (true, corsHeaders (ascii "https://a.example")) ∧
    originGuardReference (ascii "https://c.example")
      (ascii "https://b.example , https://a.example") = (false, []) :=
  ⟨(checkAndSetCORSHeaders_eq_reference twoOriginsEnv listedOriginRequest).1.trans (by decide),
    by decide⟩
/-! ## Sanitization of spam records -/

theorem htmlEscapeByte_mem (b x : Nat) (hx : x ∈ htmlEscapeByte b) :
    x ≠ 60 ∧ x ≠ 62 ∧ x ≠ 34 ∧ x ≠ 39 ∧ (x < 32 → x = b) := by
  unfold htmlEscapeByte at hx
  split_ifs at hx with h1 h2 h3 h4 h5
  · simp [ascii] at hx; omega
  · simp [ascii] at hx; omega
  · simp [ascii] at hx; omega
  · simp [ascii] at hx; omega
  · simp [ascii] at hx; omega
  · simp at hx; omega

theorem htmlEscapeString_mem (s : Bytes) (x : Nat) (hx : x ∈ htmlEscapeString s) :
    x ≠ 60 ∧ x ≠ 62 ∧ x ≠ 34 ∧ x ≠ 39 := by
  unfold htmlEscapeString at hx
  obtain ⟨b, _, hb⟩ := List.mem_flatMap.1 hx
  have := htmlEscapeByte_mem b x hb
  exact ⟨this.1, this.2.1, this.2.2.1, this.2.2.2.1⟩

theorem decodeRune_ge (s0 : Nat) (rest : Bytes) (h : ¬ s0 < 128) :
    128 ≤ (decodeRune (s0 :: rest)).1 := by
  simp only [decodeRune, h, if_false]
  have hsz : ((if s0 < 224 then 2 else if s0 < 240 then 3 else 4) ≤ 2 ↔ s0 < 224) ∧
      ((if s0 < 224 then 2 else if s0 < 240 then 3 else 4) ≤ 3 ↔ s0 < 240) := by
    split_ifs <;> omega
  have hlo : 128 ≤ (if s0 = 224 then 160 else if s0 = 240 then 144 else 128) ∧
      (s0 = 224 → 160 ≤ (if s0 = 224 then 160 else if s0 = 240 then 144 else 128)) ∧
      (s0 = 240 → 144 ≤ (if s0 = 224 then 160 else if s0 = 240 then 144 else 128)) := by
    split_ifs <;> omega
  have hhi : (if s0 = 237 then 159 else if s0 = 244 then 143 else 191) ≤ 191 := by
    split_ifs <;> omega
  generalize (if s0 < 224 then 2 else if s0 < 240 then 3 else 4) = sz at *
  generalize (if s0 = 224 then 160 else if s0 = 240 then 144 else 128) = lo at *
  generalize (if s0 = 237 then 159 else if s0 = 244 then 143 else 191) = hi at *
  repeat' split
  all_goals first | (simp [runeError]; done) | (simp only []; omega)

/-- A rune below 128 is decoded from the single byte at the head. -/
theorem decodeRune_ascii (s : Bytes) (h : (decodeRune s).1 < 128) : (decodeRune s).1 ∈ s := by
  cases s with
  | nil => simp [decodeRune, runeError] at h
  | cons s0 rest =>
    by_cases h0 : s0 < 128
    · simp [decodeRune, h0]
    · have := decodeRune_ge s0 rest h0
      omega

theorem encodeRune_mem (r b : Nat) (hb : b ∈ encodeRune r) : 128 ≤ b ∨ (b = r ∧ r < 128) := by
  unfold encodeRune at hb
  split_ifs at hb with h1 h2 h3 h4
  · simp at hb; exact Or.inr ⟨hb, h1⟩
  · simp at hb; omega
  · simp at hb; omega
  · simp at hb; omega
  · simp at hb; omega

/-- Every byte `strings.Map` writes for the sanitizing mapping is either a
byte of a multi-byte encoding or a byte of the input that is no dropped
control character. -/
theorem mapLoop_sanitize_mem (fuel : Nat) (s : Bytes) (b : Nat)
    (hb : b ∈ mapLoop sanitizeRune fuel s) :
    128 ≤ b ∨ (b ∈ s ∧ (b < 32 → b = 9 ∨ b = 10)) := by
  induction fuel generalizing s with
  | zero => simp [mapLoop] at hb
  | succ f ih =>
    unfold mapLoop at hb
    split_ifs at hb with hs
    · cases hb
    · rcases List.mem_append.1 hb with h | h
      · unfold sanitizeRune at h
        split_ifs at h with hc
        · cases h
        · rcases encodeRune_mem _ b h with h128 | ⟨heq, hlt⟩
          · exact Or.inl h128
          · right
            refine ⟨?_, ?_⟩
            · rw [heq]; exact decodeRune_ascii s hlt
            · intro hlt32
              rw [← heq] at hc
              omega
      · rcases ih _ h with h128 | ⟨hmem, hctl⟩
        · exact Or.inl h128
        · exact Or.inr ⟨List.mem_of_mem_drop hmem, hctl⟩

theorem trimLeftLoop_suffix (fuel : Nat) (s : Bytes) : ∃ n, trimLeftLoop fuel s = s.drop n := by
  induction fuel generalizing s with
  | zero => exact ⟨s.length, by simp [trimLeftLoop]⟩
  | succ f ih =>
    unfold trimLeftLoop
    split_ifs with h1 h2
    · exact ⟨0, by simp [h1]⟩
    · obtain ⟨n, hn⟩ := ih (s.drop (decodeRune s).2)
      exact ⟨(decodeRune s).2 + n, by rw [hn, List.drop_drop]⟩
    · exact ⟨0, rfl⟩

theorem trimRight_prefix (s : Bytes) : ∃ n, trimRight s = s.take n := by
  unfold trimRight
  split
  · split_ifs
    · exact ⟨_, rfl⟩
    · exact ⟨_, rfl⟩
  · exact ⟨_, rfl⟩

/-- The function `strings.TrimSpace` returns a contiguous part of its argument. -/
theorem trimSpace_part (s : Bytes) : ∃ n m, trimSpace s = (s.drop n).take m := by
  unfold trimSpace trimLeft
  obtain ⟨n, hn⟩ := trimLeftLoop_suffix s.length s
  obtain ⟨m, hm⟩ := trimRight_prefix (trimLeftLoop s.length s)
  exact ⟨n, m, by rw [hm, hn]⟩

theorem trimSpace_mem (s : Bytes) (b : Nat) (hb : b ∈ trimSpace s) : b ∈ s := by
  obtain ⟨n, m, h⟩ := trimSpace_part s
  rw [h] at hb
  exact List.mem_of_mem_drop (List.mem_of_mem_take hb)

theorem trimSpace_length (s : Bytes) : (trimSpace s).length ≤ s.length := by
  obtain ⟨n, m, h⟩ := trimSpace_part s
  rw [h, List.length_take, List.length_drop]
  omega

theorem stringsMap_sanitize_sanitized (s : Bytes) :
    Sanitized (stringsMap sanitizeRune (htmlEscapeString s)) := by
  have key : ∀ b ∈ stringsMap sanitizeRune (htmlEscapeString s),
      (b < 32 → b = 9 ∨ b = 10) ∧ b ≠ 60 ∧ b ≠ 62 ∧ b ≠ 34 ∧ b ≠ 39 := by
    intro b hb
    rcases mapLoop_sanitize_mem _ _ b hb with h | ⟨hmem, hctl⟩
    · exact ⟨fun h32 => by omega, by omega, by omega, by omega, by omega⟩
    · exact ⟨hctl, htmlEscapeString_mem s b hmem⟩
  exact ⟨fun b hb => (key b hb).1, fun h => (key 60 h).2.1 rfl, fun h => (key 62 h).2.2.1 rfl,
    fun h => (key 34 h).2.2.2.1 rfl, fun h => (key 39 h).2.2.2.2 rfl⟩

theorem Sanitized.of_subset (s t : Bytes) (hs : Sanitized s) (h : ∀ b ∈ t, b ∈ s) :
    Sanitized t :=
  ⟨fun b hb => hs.1 b (h b hb), fun h60 => hs.2.1 (h _ h60), fun h62 => hs.2.2.1 (h _ h62),
    fun h34 => hs.2.2.2.1 (h _ h34), fun h39 => hs.2.2.2.2 (h _ h39)⟩

/-- For a limit `n ≥ 0`, `sanitizeString` returns a sanitized string of at
most `n` bytes. -/
theorem sanitizeString_spec (s : Bytes) (n : Int) (hn : 0 ≤ n) :
    ∃ out, sanitizeString s n = some out ∧ (out.length : Int) ≤ n ∧ Sanitized out := by
  have hsan := stringsMap_sanitize_sanitized s
  unfold sanitizeString
  dsimp only
  split_ifs with h1 h2
  · omega
  · refine ⟨_, rfl, ?_, ?_⟩
    · have h3 := trimSpace_length
        ((stringsMap sanitizeRune (htmlEscapeString s)).take n.toNat)
      rw [List.length_take] at h3
      omega
    · exact Sanitized.of_subset _ _ hsan
        (fun b hb => List.mem_of_mem_take (trimSpace_mem _ b hb))
  · refine ⟨_, rfl, ?_, ?_⟩
    · have h3 := trimSpace_length (stringsMap sanitizeRune (htmlEscapeString s))
      omega
    · exact Sanitized.of_subset _ _ hsan (fun b hb => trimSpace_mem _ b hb)

/-- C8. For every input and every limit `n ≥ 0`, `sanitizeString` returns a
string of at most `n` bytes without control characters below 32 other than tab
and newline and without the raw characters `<`, `>`, double quote and
apostrophe; so the entry `LogSpam` builds and appends has a sender email of at
most 100, a subject of at most 200, a message of at most 500 and a client IP
of at most 50 bytes, all sanitized in this sense. -/
theorem sanitizeString_invariant (s : Bytes) (n : Int) (hn : 0 ≤ n)
    (sl : SpamLogger) (jsonLen : SpamLogEntry → Nat) (dir : List LogFile) (now : Int)
    (today email subject message reason clientIP : Bytes) :
    (∃ out, sanitizeString s n = some out ∧ (out.length : Int) ≤ n ∧ Sanitized out) ∧
    (∃ e, logSpamEntry now email subject message reason clientIP = some e ∧
      LogSpam sl jsonLen dir now today email subject message reason clientIP
        = appendEntry (rotateIfNeeded sl (now / 1000000000) dir (getCurrentLogFile today))
            (getCurrentLogFile today) e (jsonLen e) now ∧
      e.senderEmail.length ≤ 100 ∧ e.subject.length ≤ 200 ∧ e.message.length ≤ 500 ∧
      e.clientIP.length ≤ 50 ∧
      Sanitized e.senderEmail ∧ Sanitized e.subject ∧ Sanitized e.message ∧
      Sanitized e.clientIP ∧ Sanitized e.reason) := by
  refine ⟨sanitizeString_spec s n hn, ?_⟩
  obtain ⟨o1, h1, l1, s1⟩ := sanitizeString_spec email maxEmailLength (by decide)
  obtain ⟨o2, h2, l2, s2⟩ := sanitizeString_spec subject maxSubjectLength (by decide)
  obtain ⟨o3, h3, l3, s3⟩ := sanitizeString_spec message maxMessageLength (by decide)
  obtain ⟨o4, h4, _, s4⟩ := sanitizeString_spec reason 100 (by decide)
  obtain ⟨o5, h5, l5, s5⟩ := sanitizeString_spec clientIP 50 (by decide)
  have he : logSpamEntry now email subject message reason clientIP
      = some { timestamp := now, senderEmail := o1, subject := o2, message := o3, reason := o4,
               clientIP := o5 } := by
    unfold logSpamEntry
    rw [h1, h2, h3, h4, h5]
  simp only [maxEmailLength, maxSubjectLength, maxMessageLength] at l1 l2 l3
  refine ⟨_, he, ?_, ?_, ?_, ?_, ?_, s1, s2, s3, s5, s4⟩
  · unfold LogSpam
    rw [he]
  · show o1.length ≤ 100
    omega
  · show o2.length ≤ 200
    omega
  · show o3.length ≤ 500
    omega
  · show o5.length ≤ 50
    omega

theorem sanitizeString_invariant_witness :
    (0 : Int) ≤ 20 ∧
    ∃ out, sanitizeString (ascii "  <b>hi</b>\r\n there  ") 20 = some out
      ∧ (out.length : Int) ≤ 20 ∧ Sanitized out :=
  ⟨by decide,
    (sanitizeString_invariant (ascii "  <b>hi</b>\r\n there  ") 20 (by decide)
      { maxSizeMB := 10, retentionDays := 10 } (fun _ => 1) [] 0 [] [] [] [] [] []).1⟩

/-! ## Spam record store: reading -/

/-- Once the decoder has stored an error other than `io.EOF`, the loop of
`readLogFile` never ends. -/
theorem readLoop_stuck (cutoff : Int) (fuel : Nat) (d : Decoder) (acc : List SpamLogEntry)
    (e : DecodeError) (he : d.err = some e) (hne : e ≠ DecodeError.eof) :
    readLoop cutoff fuel d acc = none := by
  induction fuel with
  | zero => rfl
  | succ f ih =>
    have hdec : d.decode = (.error e, d) := by
      unfold Decoder.decode
      rw [he]
    unfold readLoop
    rw [hdec]
    cases e with
    | eof => exact absurd rfl hne
    | unexpectedEOF => exact ih
    | badSyntax => exact ih
    | unmarshal => exact ih

/-- A file with a chunk that is not JSON, or with a truncated value, keeps the
loop of `readLogFile` running forever. -/
theorem readLoop_malformed (cutoff : Int) (fuel : Nat) (chunks : List Chunk)
    (acc : List SpamLogEntry) (h : Chunk.garbage ∈ chunks ∨ Chunk.truncated ∈ chunks) :
    readLoop cutoff fuel { rest := chunks, err := none } acc = none := by
  induction fuel generalizing chunks acc with
  | zero => rfl
  | succ f ih =>
    cases chunks with
    | nil => simp at h
    | cons c rest =>
      cases c with
      | record e =>
        have hrest : Chunk.garbage ∈ rest ∨ Chunk.truncated ∈ rest := by
          rcases h with h | h
          · exact Or.inl (by simpa using h)
          · exact Or.inr (by simpa using h)
        unfold readLoop
        simp only [Decoder.decode]
        split_ifs
        · exact ih rest _ hrest
        · exact ih rest _ hrest
      | mismatch =>
        have hrest : Chunk.garbage ∈ rest ∨ Chunk.truncated ∈ rest := by
          rcases h with h | h
          · exact Or.inl (by simpa using h)
          · exact Or.inr (by simpa using h)
        unfold readLoop
        simp only [Decoder.decode]
        exact ih rest _ hrest
      | garbage =>
        unfold readLoop
        simp only [Decoder.decode]
        exact readLoop_stuck cutoff f _ acc DecodeError.badSyntax rfl (by decide)
      | truncated =>
        unfold readLoop
        simp only [Decoder.decode]
        exact readLoop_stuck cutoff f _ acc DecodeError.unexpectedEOF rfl (by decide)

/-- On a file without such chunks the loop ends, given one iteration per chunk
and one for the end of file, and returns the well-formed records newer than
the cutoff in file order. -/
theorem readLoop_wellFormed (cutoff : Int) (fuel : Nat) (chunks : List Chunk)
    (acc : List SpamLogEntry) (hg : Chunk.garbage ∉ chunks) (ht : Chunk.truncated ∉ chunks)
    (hfuel : chunks.length < fuel) :
    readLoop cutoff fuel { rest := chunks, err := none } acc
      = some (acc ++ (wellFormedRecords chunks).filter (fun e => e.timestamp > cutoff)) := by
  induction fuel generalizing chunks acc with
  | zero => omega
  | succ f ih =>
    cases chunks with
    | nil => simp [readLoop, Decoder.decode, wellFormedRecords]
    | cons c rest =>
      have hg2 : Chunk.garbage ∉ rest := fun h => hg (List.mem_cons_of_mem _ h)
      have ht2 : Chunk.truncated ∉ rest := fun h => ht (List.mem_cons_of_mem _ h)
      have hf2 : rest.length < f := by simp only [List.length_cons] at hfuel; omega
      cases c with
      | record e =>
        unfold readLoop
        simp only [Decoder.decode, wellFormedRecords]
        by_cases hc : e.timestamp > cutoff
        · rw [if_pos hc, ih rest _ hg2 ht2 hf2]
          simp [List.filter_cons, hc]
        · rw [if_neg hc, ih rest _ hg2 ht2 hf2]
          simp [List.filter_cons, hc]
      | mismatch =>
        unfold readLoop
        simp only [Decoder.decode, wellFormedRecords]
        exact ih rest _ hg2 ht2 hf2
      | garbage => exact absurd (List.mem_cons_self _ _) hg
      | truncated => exact absurd (List.mem_cons_self _ _) ht

/-- Whatever the decoder meets, the loop of `readLogFile` only adds entries
newer than the cutoff. -/
theorem readLoop_newer (cutoff : Int) (fuel : Nat) (d : Decoder) (acc out : List SpamLogEntry)
    (hacc : ∀ e ∈ acc, e.timestamp > cutoff) (h : readLoop cutoff fuel d acc = some out) :
    ∀ e ∈ out, e.timestamp > cutoff := by
  induction fuel generalizing d acc with
  | zero => simp [readLoop] at h
  | succ f ih =>
    unfold readLoop at h
    split at h
    · simp only [Option.some.injEq] at h
      rw [← h]; exact hacc
    · exact ih _ acc hacc h
    · split_ifs at h with hc
      · refine ih _ _ ?_ h
        intro e he
        rcases List.mem_append.1 he with he | he
        · exact hacc e he
        · simp only [List.mem_singleton] at he
          rw [he]; exact hc
      · exact ih _ acc hacc h

/-- Every entry `collectLoop` adds is newer than the cutoff. -/
theorem collectLoop_newer (fuel : Nat) (cutoff : Int) (files : List LogFile)
    (acc out : List SpamLogEntry) (hacc : ∀ e ∈ acc, e.timestamp > cutoff)
    (h : collectLoop fuel cutoff files acc = some out) : ∀ e ∈ out, e.timestamp > cutoff := by
  induction files generalizing acc with
  | nil =>
    simp only [collectLoop, Option.some.injEq] at h
    rw [← h]; exact hacc
  | cons file rest ih =>
    unfold collectLoop at h
    cases hr : readLogFile fuel file cutoff with
    | none => rw [hr] at h; cases h
    | some res =>
      rw [hr] at h
      cases res with
      | error _ => exact ih acc hacc h
      | ok fileEntries =>
        refine ih (acc ++ fileEntries) ?_ h
        intro e he
        rcases List.mem_append.1 he with he | he
        · exact hacc e he
        · unfold readLogFile at hr
          cases hcont : file.content with
          | none => rw [hcont] at hr; cases hr
          | some chunks =>
            rw [hcont] at hr
            dsimp only at hr
            cases hloop : readLoop cutoff fuel { rest := chunks, err := none } [] with
            | none => rw [hloop] at hr; cases hr
            | some entries =>
              rw [hloop] at hr
              simp only [Option.some.injEq, Except.ok.injEq] at hr
              rw [← hr] at he
              exact readLoop_newer cutoff fuel _ [] entries (by simp) hloop e he

/-- For a non-negative number of hours the cutoff is not before `now` minus
that many hours: the `int64` wrap of the duration can only move it later. -/
theorem cutoffTime_ge (now hours : Int) (h0 : 0 ≤ hours) (h1 : hours ≤ maxInt64) :
    now - hours * hour ≤ cutoffTime now hours := by
  unfold cutoffTime wrapInt64 hour
  simp only [maxInt64] at h1
  omega

/-- The filter half of the query contract, which `GetRecentSpamLogs` meets:
whatever it returns for `hours ≥ 0` is strictly newer than `now` minus that
many hours. -/
theorem GetRecentSpamLogs_newer (fuel : Nat) (dir : List LogFile) (now hours : Int)
    (h0 : 0 ≤ hours) (h1 : hours ≤ maxInt64) (out : List SpamLogEntry)
    (h : SpamLogger.GetRecentSpamLogs fuel dir now hours = some out) :
    ∀ e ∈ out, e.timestamp > now - hours * hour := by
  intro e he
  have := collectLoop_newer fuel _ _ [] out (by simp) h e he
  have := cutoffTime_ge now hours h0 h1
  omega

/-- C9: the code at the failing input. One partition holds two well-formed
records in the order they were appended, both inside the last 24 hours;
`SpamLogger.GetRecentSpamLogs(24)` returns them oldest first, which is not
descending order, while `getRecentSpamLogs` of the report sorts them. -/
theorem GetRecentSpamLogs_not_sorted :
    SpamLogger.GetRecentSpamLogs 3 twoRecordDir 1700000000000000000 24
      = some [olderEntry, newerEntry] ∧
    ¬ SortedDescending [olderEntry, newerEntry] ∧
    getRecentSpamLogs 3 twoRecordDir 1700000000000000000 24 = some [newerEntry, olderEntry] := by
  decide

/-- A file on which `readLogFile` does not return keeps the whole query from
returning. -/
theorem collectLoop_none (fuel : Nat) (cutoff : Int) (file : LogFile) (files : List LogFile)
    (acc : List SpamLogEntry) (hfile : readLogFile fuel file cutoff = none)
    (hmem : file ∈ files) : collectLoop fuel cutoff files acc = none := by
  induction files generalizing acc with
  | nil => cases hmem
  | cons f rest ih =>
    unfold collectLoop
    cases hr : readLogFile fuel f cutoff with
    | none => rfl
    | some res =>
      have hne : file ≠ f := fun h => by rw [h, hr] at hfile; cases hfile
      have hrest : file ∈ rest := by
        rcases List.mem_cons.1 hmem with h | h
        · exact absurd h hne
        · exact h
      cases res with
      | error _ => exact ih acc hrest
      | ok fileEntries => exact ih _ hrest

/-- C10: the code on malformed input. If a partition file holds bytes that
are not JSON, or a value cut short by the end of the file, `readLogFile` does
not return, whatever the number of iterations allowed; so neither query
returns when such a file is in the directory. -/
theorem readLogFile_malformed_never_returns (fuel : Nat) (file : LogFile) (chunks : List Chunk)
    (cutoff : Int) (hcontent : file.content = some chunks)
    (hbad : Chunk.garbage ∈ chunks ∨ Chunk.truncated ∈ chunks) :
    readLogFile fuel file cutoff = none ∧
    ∀ (dir : List LogFile) (now hours : Int), file ∈ glob (ascii "spam-*.jsonl") dir →
      getRecentSpamLogs fuel dir now hours = none ∧
      SpamLogger.GetRecentSpamLogs fuel dir now hours = none := by
  have hread : ∀ c, readLogFile fuel file c = none := by
    intro c
    unfold readLogFile
    rw [hcontent]
    dsimp only
    rw [readLoop_malformed c fuel chunks [] hbad]
  refine ⟨hread cutoff, fun dir now hours hmem => ?_⟩
  have hnone := collectLoop_none fuel (cutoffTime now hours) file _ [] (hread _) hmem
  constructor
  · unfold getRecentSpamLogs
    rw [hnone]
  · exact hnone

theorem readLogFile_malformed_never_returns_witness :
    garbageLineFile.content
      = some [Chunk.record olderEntry, Chunk.garbage, Chunk.record newerEntry] ∧
    readLogFile 1000 garbageLineFile 0 = none :=
  ⟨rfl,
    (readLogFile_malformed_never_returns 1000 garbageLineFile _ 0 rfl (Or.inl (by decide))).1⟩

/-! ## Spam record store: rotated partitions -/

/-- A pattern without `*` matches only itself. -/
theorem globMatch_literal (p name : Bytes) (hp : 42 ∉ p) :
    globMatch p name = true ↔ name = p := by
  induction p generalizing name with
  | nil => simp [globMatch]
  | cons c cs ih =>
    have hc : c ≠ 42 := fun h => hp (by simp [h])
    have hcs : 42 ∉ cs := fun h => hp (List.mem_cons_of_mem _ h)
    unfold globMatch
    rw [if_neg hc]
    cases name with
    | nil => simp
    | cons d ds =>
      simp only [Bool.and_eq_true, decide_eq_true_eq, ih ds hcs, List.cons.injEq]
      constructor
      · rintro ⟨h1, h2⟩; exact ⟨h1.symm, h2⟩
      · rintro ⟨h1, h2⟩; exact ⟨h1.symm, h2⟩

/-- What a `*` leaves is a suffix of the name. -/
theorem starTails_suffix (name t : Bytes) (h : t ∈ starTails name) : t <:+ name := by
  induction name with
  | nil =>
    simp only [starTails, List.mem_singleton] at h
    rw [h]
  | cons c cs ih =>
    unfold starTails at h
    rcases List.mem_cons.1 h with h | h
    · rw [h]
    · split_ifs at h with hc
      · cases h
      · exact (ih h).trans (List.suffix_cons c cs)

/-- A name matching `spam-*.jsonl` ends in `.jsonl`. -/
theorem globMatch_active_suffix (name : Bytes)
    (h : globMatch (ascii "spam-*.jsonl") name = true) : ascii ".jsonl" <:+ name := by
  have hpat : ascii "spam-*.jsonl" = 115 :: 112 :: 97 :: 109 :: 45 :: 42 :: ascii ".jsonl" := by
    decide
  rw [hpat] at h
  rcases name with _ | ⟨c1, _ | ⟨c2, _ | ⟨c3, _ | ⟨c4, _ | ⟨c5, rest⟩⟩⟩⟩⟩ <;>
    simp [globMatch] at h
  obtain ⟨_, _, _, _, _, t, ht, hm⟩ := h
  have hlit : globMatch (ascii ".jsonl") t = true := by
    simpa [globMatch, ascii] using hm
  rw [(globMatch_literal (ascii ".jsonl") t (by decide)).1 hlit] at ht
  have hsuf := starTails_suffix rest _ ht
  obtain ⟨pre, hpre⟩ := hsuf
  exact ⟨c1 :: c2 :: c3 :: c4 :: c5 :: pre, by simp [← hpre]⟩

/-- The decimal text of an integer ends in a digit. -/
theorem formatInt_reverse_head (i : Int) :
    ∃ d rest, (formatInt i).reverse = d :: rest ∧ 48 ≤ d ∧ d ≤ 57 := by
  have hu : ∀ u, ∃ d rest, (formatUint u).reverse = d :: rest ∧ 48 ≤ d ∧ d ≤ 57 := by
    intro u
    have h1 := formatBits_ne_nil (u + 1) u [] (by omega)
    have h2 := formatBits_allDigits (u + 1) u [] (by intro c hc; cases hc)
    unfold formatUint
    cases hr : (formatBits (u + 1) u []).reverse with
    | nil => exact absurd (List.reverse_eq_nil_iff.1 hr) h1
    | cons d rest =>
      have hd : d ∈ formatBits (u + 1) u [] := by
        rw [← List.mem_reverse, hr]; exact List.mem_cons_self _ _
      exact ⟨d, rest, rfl, h2 d hd⟩
  unfold formatInt
  split
  · obtain ⟨d, rest, h, hd⟩ := hu i.natAbs
    exact ⟨d, rest ++ [45], by rw [List.reverse_cons, h]; rfl, hd⟩
  · exact hu i.natAbs

/-- The name of a rotated partition does not match the pattern `spam-*.jsonl`
the queries pass to `filepath.Glob`. -/
theorem globMatch_rotatedName (logFile : Bytes) (nowUnix : Int) :
    globMatch (ascii "spam-*.jsonl") (rotatedName logFile nowUnix) = false := by
  cases h : globMatch (ascii "spam-*.jsonl") (rotatedName logFile nowUnix)
  · rfl
  · exfalso
    obtain ⟨pre, hpre⟩ := globMatch_active_suffix _ h
    obtain ⟨d, rest, hrev, hd1, hd2⟩ := formatInt_reverse_head nowUnix
    have hr := congrArg List.reverse hpre
    unfold rotatedName at hr
    rw [List.reverse_append, List.reverse_append, List.reverse_cons, hrev] at hr
    have h0 := congrArg List.head? hr
    simp [ascii] at h0
    omega

/-- A rotated partition never reaches `readLogFile`: with or without it the
directory has the same glob result. -/
theorem glob_rotated (dir1 dir2 : List LogFile) (file : LogFile) (logFile : Bytes)
    (nowUnix : Int) (hname : file.name = rotatedName logFile nowUnix) :
    glob (ascii "spam-*.jsonl") (dir1 ++ file :: dir2) = glob (ascii "spam-*.jsonl") (dir1 ++ dir2) := by
  unfold glob
  rw [List.filter_append, List.filter_append, List.filter_cons, hname,
    globMatch_rotatedName logFile nowUnix]
  simp

/-- The name `rotateIfNeeded` gives a full partition is a rotated name, and the
renamed file keeps its content. -/
theorem rotateIfNeeded_full (sl : SpamLogger) (nowUnix : Int) (file : LogFile)
    (hfull : (file.size : Int) ≥ wrapInt64 (wrapInt64 (sl.maxSizeMB * 1024) * 1024)) :
    rotateIfNeeded sl nowUnix [file] file.name
      = [{ file with name := rotatedName file.name nowUnix }] := by
  unfold rotateIfNeeded rename
  simp [hfull, rotatedName]

/-- The store at work: the active partition has reached 10 MiB and holds two
records of the last two hours. The next `LogSpam` renames it and starts a new
active partition. Before the call the report query returns both records;
after it, only the new one. `cleanOldLogs` uses the pattern `spam-*.jsonl*`,
which does match the rotated name. -/
theorem rotation_hides_records :
    getRecentSpamLogs 5 [fullPartition] 1700000000000000000 24
      = some [newerEntry, olderEntry] ∧
    LogSpam defaultLogger (fun _ => 200) [fullPartition] 1700000000000000000
        (ascii "2023-11-14") (ascii "c@example.com") (ascii "third") (ascii "three")
        (ascii "honeypot triggered") (ascii "203.0.113.9")
      = Except.ok [rotatedPartition,
          { name := ascii "spam-2023-11-14.jsonl", content := some [Chunk.record latestEntry],
            size := 200, modTime := 1700000000000000000 }] ∧
    getRecentSpamLogs 5 [rotatedPartition,
          { name := ascii "spam-2023-11-14.jsonl", content := some [Chunk.record latestEntry],
            size := 200, modTime := 1700000000000000000 }] 1700000000000000000 24
      = some [latestEntry] ∧
    SpamLogger.GetRecentSpamLogs 5 [rotatedPartition,
          { name := ascii "spam-2023-11-14.jsonl", content := some [Chunk.record latestEntry],
            size := 200, modTime := 1700000000000000000 }] 1700000000000000000 24
      = some [latestEntry] ∧
    newerEntry.timestamp > cutoffTime 1700000000000000000 24 ∧
    globMatch (ascii "spam-*.jsonl") rotatedPartition.name = false ∧
    globMatch (ascii "spam-*.jsonl*") rotatedPartition.name = true := by
  refine ⟨by decide, ?_, by decide, by decide, by decide, by decide, by decide⟩
  rfl

/-- C11: the code on rotated partitions. A file named as `rotateIfNeeded` names
a rotated partition is never read by the queries: `SpamLogger.GetRecentSpamLogs`
and the report's `getRecentSpamLogs` return the same with and without it,
whatever records it holds. -/
theorem query_skips_rotated_partitions (fuel : Nat) (dir1 dir2 : List LogFile) (file : LogFile)
    (logFile : Bytes) (nowUnix now hours : Int)
    (hname : file.name = rotatedName logFile nowUnix) :
    SpamLogger.GetRecentSpamLogs fuel (dir1 ++ file :: dir2) now hours
      = SpamLogger.GetRecentSpamLogs fuel (dir1 ++ dir2) now hours ∧
    getRecentSpamLogs fuel (dir1 ++ file :: dir2) now hours
      = getRecentSpamLogs fuel (dir1 ++ dir2) now hours := by
  unfold SpamLogger.GetRecentSpamLogs getRecentSpamLogs
  rw [glob_rotated dir1 dir2 file logFile nowUnix hname]
  exact ⟨rfl, rfl⟩

theorem query_skips_rotated_partitions_witness :
    rotatedPartition.name = rotatedName (ascii "spam-2023-11-14.jsonl") 1700000000 ∧
    newerEntry.timestamp > cutoffTime 1700000000000000000 24 ∧
    getRecentSpamLogs 5 ([] ++ rotatedPartition :: []) 1700000000000000000 24
      = getRecentSpamLogs 5 ([] ++ []) 1700000000000000000 24 :=
  ⟨rfl, by decide,
    (query_skips_rotated_partitions 5 [] [] rotatedPartition (ascii "spam-2023-11-14.jsonl")
      1700000000 1700000000000000000 24 rfl).2⟩

/-! ## Spam report: rendering -/

/-- What `strings.LastIndex` returns for a one-byte separator: -1 when the
byte does not occur, otherwise the index of an occurrence with none after
it. -/
theorem lastIndexByte_spec (b : Nat) (s : Bytes) :
    (lastIndexByte b s = -1 ∧ b ∉ s) ∨
    ∃ i : Nat, lastIndexByte b s = (i : Int) ∧ s[i]? = some b ∧
      ∀ j, i < j → s[j]? ≠ some b := by
  induction s with
  | nil => exact Or.inl ⟨rfl, by simp⟩
  | cons c cs ih =>
    unfold lastIndexByte
    rcases ih with ⟨h1, h2⟩ | ⟨i, h1, h2, h3⟩
    · rw [h1]
      by_cases hc : c = b
      · right
        refine ⟨0, by simp [hc], by simp [hc], ?_⟩
        intro j hj hsome
        obtain ⟨k, rfl⟩ : ∃ k, j = k + 1 := ⟨j - 1, by omega⟩
        rw [List.getElem?_cons_succ] at hsome
        exact h2 (List.getElem?_mem hsome)
      · left
        refine ⟨by simp [hc], ?_⟩
        intro hmem
        rcases List.mem_cons.1 hmem with h | h
        · exact hc h.symm
        · exact h2 h
    · right
      rw [h1]
      refine ⟨i + 1, ?_, by simpa using h2, ?_⟩
      · have : (i : Int) ≥ 0 := Int.ofNat_nonneg i
        simp [this]
      · intro j hj hsome
        obtain ⟨k, rfl⟩ : ∃ k, j = k + 1 := ⟨j - 1, by omega⟩
        rw [List.getElem?_cons_succ] at hsome
        exact h3 k (by omega) hsome

theorem htmlEscapeString_noRaw (s : Bytes) : NoRawMarkup (htmlEscapeString s) :=
  ⟨fun h => (htmlEscapeString_mem s 60 h).1 rfl, fun h => (htmlEscapeString_mem s 62 h).2.1 rfl,
    fun h => (htmlEscapeString_mem s 34 h).2.2.1 rfl,
    fun h => (htmlEscapeString_mem s 39 h).2.2.2 rfl⟩

theorem noRawMarkup_of_subset (s t : Bytes) (hs : NoRawMarkup s) (h : ∀ b ∈ t, b ∈ s) :
    NoRawMarkup t :=
  ⟨fun h60 => hs.1 (h _ h60), fun h62 => hs.2.1 (h _ h62), fun h34 => hs.2.2.1 (h _ h34),
    fun h39 => hs.2.2.2 (h _ h39)⟩

theorem htmlEscapeByte_ne_nil (b : Nat) : htmlEscapeByte b ≠ [] := by
  unfold htmlEscapeByte
  split_ifs <;> simp [ascii]

theorem htmlEscapeString_ne_nil (s : Bytes) (hs : s ≠ []) : htmlEscapeString s ≠ [] := by
  cases s with
  | nil => exact absurd rfl hs
  | cons b bs =>
    unfold htmlEscapeString
    rw [List.flatMap_cons]
    intro h
    exact htmlEscapeByte_ne_nil b (List.append_eq_nil.1 h).1

/-- The truncating branch of `formatMessage`. -/
theorem formatMessage_long_eq (m : Bytes) (hlong : (htmlEscapeString m).length > 200) :
    formatMessage m =
      (if lastIndexByte 32 ((htmlEscapeString m).take 200) > 150 then
        ((htmlEscapeString m).take 200).take
          (lastIndexByte 32 ((htmlEscapeString m).take 200)).toNat
      else (htmlEscapeString m).take 200) ++ truncationMarker := by
  have hm : m ≠ [] := by
    intro h
    rw [h] at hlong
    simp [htmlEscapeString] at hlong
  unfold formatMessage
  rw [if_neg hm, if_pos hlong]

/-- The length and position facts of the truncating branch. -/
theorem formatMessage_cut (m : Bytes) (hlong : (htmlEscapeString m).length > 200) :
    ∃ p, formatMessage m = p ++ truncationMarker ∧ p <+: htmlEscapeString m ∧ p.length ≤ 200 ∧
      ((∃ j, 150 < j ∧ j < 200 ∧ (htmlEscapeString m)[j]? = some 32) →
        150 < p.length ∧ p.length < 200 ∧ (htmlEscapeString m)[p.length]? = some 32 ∧
        ∀ j, p.length < j → j < 200 → (htmlEscapeString m)[j]? ≠ some 32) ∧
      ((∀ j, 150 < j → j < 200 → (htmlEscapeString m)[j]? ≠ some 32) →
        p = (htmlEscapeString m).take 200) := by
  rw [formatMessage_long_eq m hlong]
  generalize htmlEscapeString m = E at hlong ⊢
  have htlen : (E.take 200).length = 200 := by rw [List.length_take]; omega
  rcases lastIndexByte_spec 32 (E.take 200) with ⟨h1, h2⟩ | ⟨i, h1, h2, h3⟩
  · rw [h1]
    refine ⟨E.take 200, by simp, List.take_prefix _ _, by omega, ?_, fun _ => rfl⟩
    rintro ⟨j, _, hj2, hj3⟩
    exfalso
    rw [← List.getElem?_take_of_lt hj2] at hj3
    exact h2 (List.getElem?_mem hj3)
  · have hi200 : i < 200 := by
      by_contra hge
      have : (E.take 200)[i]? = none := by
        rw [List.getElem?_eq_none_iff]; omega
      rw [this] at h2; cases h2
    have hEi : E[i]? = some 32 := by rw [← List.getElem?_take_of_lt hi200]; exact h2
    rw [h1]
    by_cases hbig : (i : Int) > 150
    · rw [if_pos hbig]
      have hp : (E.take 200).take (i : Int).toNat = E.take i := by
        rw [Int.toNat_ofNat, List.take_take]
        congr 1; omega
      have hplen : (E.take i).length = i := by rw [List.length_take]; omega
      rw [hp]
      refine ⟨E.take i, rfl, List.take_prefix _ _, by omega, ?_, ?_⟩
      · intro _
        rw [hplen]
        refine ⟨by omega, hi200, hEi, ?_⟩
        intro j hj1 hj2 hj3
        rw [← List.getElem?_take_of_lt hj2] at hj3
        exact h3 j hj1 hj3
      · intro hno
        exact absurd hEi (hno i (by omega) hi200)
    · rw [if_neg hbig]
      refine ⟨E.take 200, rfl, List.take_prefix _ _, by omega, ?_, fun _ => rfl⟩
      rintro ⟨j, hj1, hj2, hj3⟩
      exfalso
      rw [← List.getElem?_take_of_lt hj2] at hj3
      by_cases hij : i < j
      · exact h3 j hij hj3
      · omega

/-- The branch of `formatMessage` for a non-empty message of at most 200
escaped bytes. -/
theorem formatMessage_short_eq (m : Bytes) (hm : m ≠ [])
    (hshort : ¬ (htmlEscapeString m).length > 200) :
    formatMessage m = replaceAll 13 [] (replaceAll 10 (ascii "<br>") (htmlEscapeString m)) := by
  unfold formatMessage
  rw [if_neg hm, if_neg hshort]

/-- C12, as stated, fails: the escaped form of 201 letters `a` is longer than
200, and `formatMessage` returns its first 200 bytes followed by the marker;
no prefix that gives this result ends at a white-space boundary. -/
theorem long_word_is_cut_inside_the_word :
    (htmlEscapeString longWord).length > 200 ∧
    ¬ ∃ p, formatMessage longWord = p ++ truncationMarker ∧ p <+: htmlEscapeString longWord ∧
      p.length ≤ 200 ∧ 150 < p.length ∧ EndsAtWordBoundary (htmlEscapeString longWord) p := by
  have hout : formatMessage longWord = List.replicate 200 97 ++ truncationMarker := by
    set_option maxRecDepth 100000 in decide
  have hno : ¬ EndsAtWordBoundary (htmlEscapeString longWord) (List.replicate 200 97) := by
    set_option maxRecDepth 100000 in decide
  refine ⟨by set_option maxRecDepth 100000 in decide, ?_⟩
  rintro ⟨p, hp, _, _, _, hb⟩
  rw [hout] at hp
  rw [← List.append_cancel_right hp] at hb
  exact hno hb

/-- C12, amended. For every message whose HTML-escaped form is longer than 200
bytes, `formatMessage` returns a prefix of the escaped text followed by the
truncation marker, and the prefix is at most 200 bytes long. If the escaped
text has a space byte at an index above 150 and below 200, the prefix ends
right before the last such space, so its length lies above 150 and below 200;
if it has none, the prefix is exactly the first 200 bytes. -/
theorem formatMessage_truncation (m : Bytes) (hlong : (htmlEscapeString m).length > 200) :
    ∃ p, formatMessage m = p ++ truncationMarker ∧ p <+: htmlEscapeString m ∧ p.length ≤ 200 ∧
      ((∃ j, 150 < j ∧ j < 200 ∧ (htmlEscapeString m)[j]? = some 32) →
        150 < p.length ∧ p.length < 200 ∧ (htmlEscapeString m)[p.length]? = some 32 ∧
        ∀ j, p.length < j → j < 200 → (htmlEscapeString m)[j]? ≠ some 32) ∧
      ((∀ j, 150 < j → j < 200 → (htmlEscapeString m)[j]? ≠ some 32) →
        p = (htmlEscapeString m).take 200) :=
  formatMessage_cut m hlong

set_option maxRecDepth 100000 in
theorem formatMessage_truncation_witness :
    (htmlEscapeString twoWords).length > 200 ∧
    ∃ p, formatMessage twoWords = p ++ truncationMarker ∧ p <+: htmlEscapeString twoWords :=
  ⟨by decide,
    (formatMessage_truncation twoWords (by decide)).imp (fun _ h => ⟨h.1, h.2.1⟩)⟩

theorem escapedByte_htmlEscapeByte (b : Nat) : EscapedByte b (htmlEscapeByte b) := by
  unfold EscapedByte htmlEscapeByte
  by_cases h38 : b = 38
  · rw [if_pos h38]; exact Or.inl ⟨h38, rfl⟩
  by_cases h39 : b = 39
  · rw [if_neg h38, if_pos h39]; exact Or.inr (Or.inr (Or.inr (Or.inr (Or.inl ⟨h39, rfl⟩))))
  by_cases h60 : b = 60
  · rw [if_neg h38, if_neg h39, if_pos h60]; exact Or.inr (Or.inl ⟨h60, rfl⟩)
  by_cases h62 : b = 62
  · rw [if_neg h38, if_neg h39, if_neg h60, if_pos h62]
    exact Or.inr (Or.inr (Or.inl ⟨h62, rfl⟩))
  by_cases h34 : b = 34
  · rw [if_neg h38, if_neg h39, if_neg h60, if_neg h62, if_pos h34]
    exact Or.inr (Or.inr (Or.inr (Or.inl ⟨h34, rfl⟩)))
  rw [if_neg h38, if_neg h39, if_neg h60, if_neg h62, if_neg h34]
  exact Or.inr (Or.inr (Or.inr (Or.inr (Or.inr ⟨h38, h60, h62, h34, h39, rfl⟩))))

theorem escapedText_htmlEscapeString (s : Bytes) : EscapedText s (htmlEscapeString s) := by
  refine ⟨s.map htmlEscapeByte, ?_, ?_⟩
  · induction s with
    | nil => exact List.Forall₂.nil
    | cons b bs ih => exact List.Forall₂.cons (escapedByte_htmlEscapeByte b) ih
  · unfold htmlEscapeString
    rw [List.flatMap_def]

theorem fieldCell_escapeHTML (s : Bytes) : FieldCell s (escapeHTML s) := by
  unfold FieldCell escapeHTML
  by_cases hs : s = []
  · rw [if_pos hs]
    exact ⟨by decide, by decide, fun _ => rfl, fun h => absurd hs h⟩
  · rw [if_neg hs]
    exact ⟨htmlEscapeString_ne_nil s hs, htmlEscapeString_noRaw s, fun h => absurd h hs,
      fun _ => escapedText_htmlEscapeString s⟩

theorem htmlEscapeByte_noRaw (b : Nat) : NoRawMarkup (htmlEscapeByte b) := by
  have h := htmlEscapeString_noRaw [b]
  unfold htmlEscapeString at h
  simpa using h

/-- The two `strings.ReplaceAll` calls of `formatMessage` on the escape of one
byte. -/
theorem lineBreaks_htmlEscapeByte (b : Nat) :
    replaceAll 13 [] (replaceAll 10 (ascii "<br>") (htmlEscapeByte b))
      = if b = 10 then ascii "<br>" else if b = 13 then [] else htmlEscapeByte b := by
  unfold htmlEscapeByte
  by_cases h38 : b = 38
  · subst h38; decide
  by_cases h39 : b = 39
  · subst h39; decide
  by_cases h60 : b = 60
  · subst h60; decide
  by_cases h62 : b = 62
  · subst h62; decide
  by_cases h34 : b = 34
  · subst h34; decide
  rw [if_neg h38, if_neg h39, if_neg h60, if_neg h62, if_neg h34]
  by_cases h10 : b = 10
  · subst h10; decide
  by_cases h13 : b = 13
  · subst h13; decide
  rw [if_neg h10, if_neg h13]
  simp [replaceAll, h10, h13]

theorem replaceAll_append (old : Nat) (new a b : Bytes) :
    replaceAll old new (a ++ b) = replaceAll old new a ++ replaceAll old new b := by
  unfold replaceAll
  rw [List.flatMap_append]

/-- The short branch of `formatMessage`, read byte by byte of the message. -/
theorem lineBreaks_htmlEscapeString (m : Bytes) :
    replaceAll 13 [] (replaceAll 10 (ascii "<br>") (htmlEscapeString m))
      = (m.map (fun b =>
          if b = 10 then ascii "<br>" else if b = 13 then [] else htmlEscapeByte b)).flatten := by
  induction m with
  | nil => rfl
  | cons b bs ih =>
    have hcons : htmlEscapeString (b :: bs) = htmlEscapeByte b ++ htmlEscapeString bs := by
      unfold htmlEscapeString
      rw [List.flatMap_cons]
    rw [hcons, replaceAll_append, replaceAll_append, ih, lineBreaks_htmlEscapeByte,
      List.map_cons, List.flatten_cons]

theorem messagePiece_map (m : Bytes) :
    List.Forall₂ MessagePiece m
      (m.map (fun b =>
        if b = 10 then ascii "<br>" else if b = 13 then [] else htmlEscapeByte b)) := by
  induction m with
  | nil => exact List.Forall₂.nil
  | cons b bs ih =>
    refine List.Forall₂.cons ?_ ih
    unfold MessagePiece
    dsimp only
    by_cases h10 : b = 10
    · rw [if_pos h10]; exact Or.inl ⟨h10, rfl⟩
    · by_cases h13 : b = 13
      · rw [if_neg h10, if_pos h13]; exact Or.inr (Or.inl ⟨h13, rfl⟩)
      · rw [if_neg h10, if_neg h13]
        exact Or.inr (Or.inr ⟨h10, h13, escapedByte_htmlEscapeByte b, htmlEscapeByte_noRaw b⟩)

theorem messageCell_formatMessage (m : Bytes) : MessageCell m (formatMessage m) := by
  refine ⟨?_, ?_⟩
  · intro hm
    rw [hm]
    decide
  · intro hm
    refine ⟨htmlEscapeString m, escapedText_htmlEscapeString m, htmlEscapeString_noRaw m, ?_, ?_⟩
    · intro hlong
      obtain ⟨p, hp, hpre, _⟩ := formatMessage_cut m hlong
      exact ⟨p, hpre, hp⟩
    · intro hshort
      exact ⟨_, messagePiece_map m,
        (formatMessage_short_eq m hm (by omega)).trans (lineBreaks_htmlEscapeString m)⟩

theorem reportRow_spec (timeText : SpamLogEntry → Bytes) (e : SpamLogEntry) :
    ReportRow timeText e (reportRow timeText e) :=
  ⟨_, _, _, _, _, fieldCell_escapeHTML e.senderEmail, fieldCell_escapeHTML e.subject,
    messageCell_formatMessage e.message, fieldCell_escapeHTML e.reason,
    fieldCell_escapeHTML e.clientIP, rfl⟩

/-- C13. The document `generateHTMLReport` returns is its head, one table row
per entry in the order of the entries, and its foot. In the row of an entry
each of the sender-email, subject, reason and IP cells is not empty and holds
none of the raw characters `<`, `>`, double quote and apostrophe: it is the
text `(empty)` for an empty field and the HTML-escaped field otherwise. The
message cell of an empty message is the `(empty)` placeholder in its `span`;
that of any other message is built from the HTML-escaped message alone, either
a prefix of it followed by the truncation marker, or the message byte by byte
with each newline turned into `<br>`, each carriage return dropped and every
other byte escaped, so no `<`, `>`, double quote or apostrophe of the message
reaches the cell unescaped. -/
theorem report_cells_escaped (head foot : Bytes) (timeText : SpamLogEntry → Bytes)
    (entries : List SpamLogEntry) :
    ∃ rows : List Bytes, List.Forall₂ (ReportRow timeText) entries rows ∧
      generateHTMLReport head foot timeText entries = head ++ rows.flatten ++ foot := by
  refine ⟨entries.map (reportRow timeText), ?_, rfl⟩
  induction entries with
  | nil => exact List.Forall₂.nil
  | cons e es ih => exact List.Forall₂.cons (reportRow_spec timeText e) ih
end HugoContact
